import Mathlib

/-!
Verification of the deep structural-equality engine (src/isEqual.ts).

The engine compares two runtime values of a dynamically typed value model.
Object identity and cyclic object graphs are modelled with an explicit heap:
a value is a primitive, a function reference, or an object reference into the
heap.  The source function isEqualWithMemo is recursive over possibly cyclic
graphs; the embedding adds an explicit fuel parameter (structural recursion on
fuel) and we prove that the fuel used by the public wrapper always suffices,
which is the termination theorem of the engine.

The memo tracker (a WeakMap of WeakMaps keyed by object identity in the
source) is modelled as a function from ordered pairs of heap indices to an
optional cached boolean.
-/

set_option maxHeartbeats 1000000

namespace IsDeepEqual

/-- Numeric values: the claims exercise integers and the not-a-number value.
NaN is a distinguished number that is not strictly equal to itself. -/
inductive JsNum where
  | int (i : Int)
  | nan
deriving DecidableEq, Repr

/-- Primitive values, mirroring the Primitive type of the source:
string, number, boolean, symbol (by identity id), bigint, undefined, null. -/
inductive Prim where
  | undef
  | null
  | bool (b : Bool)
  | num (n : JsNum)
  | str (s : String)
  | sym (id : Nat)
  | bigint (i : Int)
deriving DecidableEq, Repr

/-- Property keys as returned by Reflect.ownKeys: strings and symbols. -/
inductive PropKey where
  | str (s : String)
  | sym (id : Nat)
deriving DecidableEq, Repr

/-- A runtime value: a primitive, a function (compared by reference identity,
modelled by an id), or a reference to an object in the heap. -/
inductive Value where
  | prim (p : Prim)
  | funref (id : Nat)
  | ref (i : Nat)
deriving DecidableEq, Repr

/-- The payload of a boxed primitive object (new String / Number / Boolean). -/
inductive BoxKind where
  | bStr (s : String)
  | bNum (n : JsNum)
  | bBool (b : Bool)
deriving DecidableEq, Repr

/-- Element-kind tag of a typed array (its constructor in the source).
Integer kinds only: the numeric model of the embedding is exact. -/
inductive TAKind where
  | uint8
  | int8
  | uint16
  | int16
  | uint32
  | int32
deriving DecidableEq, Repr

/-- Prototype of a plain structured object: Object.prototype, a null
prototype, or a class prototype identified by an id. -/
inductive ObjProto where
  | objectP
  | nullP
  | classP (id : Nat)
deriving DecidableEq, Repr

/-- The prototype/hidden-class tag Object.getPrototypeOf yields for each kind
of object reaching the prototype check of the engine. -/
inductive ProtoTag where
  | arrayP
  | dateP
  | regexpP
  | typedP (k : TAKind)
  | setP
  | mapP
  | numberP
  | stringP
  | booleanP
  | plainP (p : ObjProto)
deriving DecidableEq, Repr

/-- Heap objects.  Arrays carry optional slots (none is a hole of a sparse
array); dates carry their millisecond time; regexps carry source and flags;
typed arrays carry their element-kind tag and underlying bytes; sets and maps
carry their elements/entries in insertion order; boxed primitives carry the
wrapped primitive; plain objects carry a prototype and own fields in key
order. -/
inductive Obj where
  | arr (elems : List (Option Value))
  | date (t : Int)
  | regexp (source flags : String)
  | typed (k : TAKind) (bytes : List Nat)
  | set (elems : List Value)
  | map (entries : List (Value × Value))
  | boxed (b : BoxKind)
  | obj (proto : ObjProto) (fields : List (PropKey × Value))
deriving DecidableEq, Repr

/-- A heap: object reference i denotes the i-th object of the list. -/
abbrev Heap := List Obj

/-- The EqualityOptions record of the source, all flags default false. -/
structure EqualityOptions where
  strictSparseArrays : Bool := false
  normalizeBoxedPrimitives : Bool := false
  allowPrototypeMismatch : Bool := false
deriving DecidableEq, Repr

/-- The memo tracker (MemoCache in the source): an ordered pair of object
identities maps to an optional cached boolean. -/
def Memo := Nat → Nat → Option Bool

/-- The fresh tracker created by the public API. -/
def emptyMemo : Memo := fun _ _ => none

/-- Store a verdict for the ordered pair (x, y), overwriting. -/
def memoSet (m : Memo) (x y : Nat) (v : Bool) : Memo :=
  fun a b => if a = x && b = y then some v else m a b

/-- The undefined value. -/
def undefinedV : Value := Value.prim Prim.undef

/-- Read an object out of the heap (total; object references produced by the
runtime are always in range). -/
def heapGet (h : Heap) (i : Nat) : Obj :=
  (h.get? i).getD (Obj.obj ObjProto.objectP [])

/-- Strict equality (the triple-equals of the source): identical primitive
values (with NaN unequal to itself), identical function references, or
identical object references. -/
def tripleEq : Value → Value → Bool
  | Value.prim (Prim.num JsNum.nan), Value.prim (Prim.num JsNum.nan) => false
  | Value.prim p, Value.prim q => decide (p = q)
  | Value.funref i, Value.funref j => decide (i = j)
  | Value.ref i, Value.ref j => decide (i = j)
  | _, _ => false

/-- The value is the not-a-number number (typeof number and Number.isNaN). -/
def isNaNV (v : Value) : Bool :=
  decide (v = Value.prim (Prim.num JsNum.nan))

/-- SameValueZero, the key equality of JS Map and Set: strict equality except
that NaN matches NaN. -/
def svzEq (a b : Value) : Bool :=
  tripleEq a b || (isNaNV a && isNaNV b)

/-- isPrimitive of the source. -/
def isPrimitiveV : Value → Bool
  | Value.prim _ => true
  | _ => false

/-- isFunction of the source. -/
def isFunctionV : Value → Bool
  | Value.funref _ => true
  | _ => false

/-- isBoxedPrimitive of the source: instance of String, Number or Boolean. -/
def isBoxedPrimitiveV (h : Heap) : Value → Bool
  | Value.ref i =>
    match heapGet h i with
    | Obj.boxed _ => true
    | _ => false
  | _ => false

/-- valueOf on a boxed primitive: unwrap to the underlying primitive. -/
def unboxV (h : Heap) : Value → Value
  | Value.ref i =>
    match heapGet h i with
    | Obj.boxed (BoxKind.bStr s) => Value.prim (Prim.str s)
    | Obj.boxed (BoxKind.bNum n) => Value.prim (Prim.num n)
    | Obj.boxed (BoxKind.bBool b) => Value.prim (Prim.bool b)
    | _ => Value.ref i
  | v => v

/-- getPrototypeOf as a tag, per object kind. -/
def protoOf : Obj → ProtoTag
  | Obj.arr _ => ProtoTag.arrayP
  | Obj.date _ => ProtoTag.dateP
  | Obj.regexp _ _ => ProtoTag.regexpP
  | Obj.typed k _ => ProtoTag.typedP k
  | Obj.set _ => ProtoTag.setP
  | Obj.map _ => ProtoTag.mapP
  | Obj.boxed (BoxKind.bStr _) => ProtoTag.stringP
  | Obj.boxed (BoxKind.bNum _) => ProtoTag.numberP
  | Obj.boxed (BoxKind.bBool _) => ProtoTag.booleanP
  | Obj.obj p _ => ProtoTag.plainP p

/-- compareDate of the source: getTime equality. -/
def compareDate (ta tb : Int) : Bool := decide (ta = tb)

/-- compareRegExp of the source: source and flags equality. -/
def compareRegExp (sa fa sb fb : String) : Bool :=
  decide (sa = sb) && decide (fa = fb)

/-- Byte loop of compareTypedArray: pointwise comparison of the byte views. -/
def bytesLoop : List Nat → List Nat → Bool
  | [], _ => true
  | _, [] => true
  | a :: as, b :: bs => decide (a = b) && bytesLoop as bs

/-- compareTypedArray of the source: same constructor tag, same byte length,
then byte-for-byte equality over the underlying bytes. -/
def compareTypedArray (ka : TAKind) (ba : List Nat) (kb : TAKind) (bb : List Nat) : Bool :=
  if ka ≠ kb || ba.length ≠ bb.length then false
  else bytesLoop ba bb

/-- Bytes per element of a typed-array kind. -/
def bytesPerElem : TAKind → Nat
  | TAKind.uint8 => 1
  | TAKind.int8 => 1
  | TAKind.uint16 => 2
  | TAKind.int16 => 2
  | TAKind.uint32 => 4
  | TAKind.int32 => 4

/-- Number of elements of a typed array with the given bytes. -/
def elemCount (k : TAKind) (bs : List Nat) : Nat :=
  bs.length / bytesPerElem k

/-- Little-endian read of cnt bytes at offset off. -/
def readLE (bs : List Nat) : Nat → Nat → Nat
  | _, 0 => 0
  | off, Nat.succ c => bs.getD off 0 + 256 * readLE bs (off + 1) c

/-- The i-th element of a typed array, as a primitive number. -/
def elemVal (k : TAKind) (bs : List Nat) (i : Nat) : Value :=
  let w := bytesPerElem k
  let u := readLE bs (i * w) w
  match k with
  | TAKind.uint8 => Value.prim (Prim.num (JsNum.int u))
  | TAKind.uint16 => Value.prim (Prim.num (JsNum.int u))
  | TAKind.uint32 => Value.prim (Prim.num (JsNum.int u))
  | _ =>
    let md := 2 ^ (8 * w)
    Value.prim (Prim.num (JsNum.int (if 2 * u < md then (u : Int) else (u : Int) - md)))

/-- The string property key of an array index. -/
def natKey (i : Nat) : PropKey := PropKey.str (toString i)

/-- Reflect.ownKeys per object kind: array index keys (present slots) plus
length for arrays; lastIndex for regexps; element index keys for typed
arrays; character index keys plus length for boxed strings; the own fields in
order for plain objects; dates, sets, maps and boxed numbers/booleans have no
own keys. -/
def ownKeys : Obj → List PropKey
  | Obj.arr es =>
    (((List.range es.length).filter (fun i => (es.getD i none).isSome)).map natKey)
      ++ [PropKey.str "length"]
  | Obj.date _ => []
  | Obj.regexp _ _ => [PropKey.str "lastIndex"]
  | Obj.typed k bs => (List.range (elemCount k bs)).map natKey
  | Obj.set _ => []
  | Obj.map _ => []
  | Obj.boxed (BoxKind.bStr s) => ((List.range s.length).map natKey) ++ [PropKey.str "length"]
  | Obj.boxed _ => []
  | Obj.obj _ fs => fs.map Prod.fst

/-- Own-property read, consistent with ownKeys. -/
def getOwn : Obj → PropKey → Option Value
  | Obj.arr es, k =>
    if k = PropKey.str "length" then some (Value.prim (Prim.num (JsNum.int es.length)))
    else
      (((List.range es.length).filter (fun i => (es.getD i none).isSome)).find?
        (fun i => decide (natKey i = k))).bind (fun i => es.getD i none)
  | Obj.regexp _ _, k =>
    if k = PropKey.str "lastIndex" then some (Value.prim (Prim.num (JsNum.int 0))) else none
  | Obj.typed kd bs, k =>
    ((List.range (elemCount kd bs)).find? (fun i => decide (natKey i = k))).map
      (fun i => elemVal kd bs i)
  | Obj.boxed (BoxKind.bStr s), k =>
    if k = PropKey.str "length" then some (Value.prim (Prim.num (JsNum.int s.length)))
    else
      ((List.range s.length).find? (fun i => decide (natKey i = k))).map
        (fun i => Value.prim (Prim.str (String.mk [s.toList.getD i ' '])))
  | Obj.obj _ fs, k => (fs.find? (fun f => decide (f.1 = k))).map Prod.snd
  | _, _ => none

/-- hasOwnProperty. -/
def hasOwnK (o : Obj) (k : PropKey) : Bool := (getOwn o k).isSome

/-- Indexing read a[key] for an own key (undefined when absent). -/
def getOwnD (o : Obj) (k : PropKey) : Value := (getOwn o k).getD undefinedV

/-- Map.prototype.get: the value at the first entry whose key SameValueZero
matches, if any. -/
def mapGet (entries : List (Value × Value)) (k : Value) : Option Value :=
  (entries.find? (fun e => svzEq e.1 k)).map Prod.snd

/-- Map.prototype.has. -/
def mapHas (entries : List (Value × Value)) (k : Value) : Bool :=
  (mapGet entries k).isSome

/-- Element loop of compareArray over both slot lists.  Under strict sparse
mode a holeness mismatch fails and two holes are skipped; otherwise the slots
are read (undefined for a hole) and compared through the engine, threading
the memo. -/
def compareArrayLoop (rec_ : Value → Value → Memo → Option (Bool × Memo))
    (o : EqualityOptions) :
    List (Option Value) → List (Option Value) → Memo → Option (Bool × Memo)
  | [], _, m => some (true, m)
  | _ :: _, [], m => some (true, m)
  | a :: as, b :: bs, m =>
    if o.strictSparseArrays && (a.isSome != b.isSome) then some (false, m)
    else if o.strictSparseArrays && !a.isSome && !b.isSome then
      compareArrayLoop rec_ o as bs m
    else
      match rec_ (a.getD undefinedV) (b.getD undefinedV) m with
      | none => none
      | some (true, m') => compareArrayLoop rec_ o as bs m'
      | some (false, m') => some (false, m')

/-- compareArray of the source: equal length required, then the element
loop. -/
def compareArray (rec_ : Value → Value → Memo → Option (Bool × Memo))
    (o : EqualityOptions) (ea eb : List (Option Value)) (m : Memo) :
    Option (Bool × Memo) :=
  if ea.length ≠ eb.length then some (false, m)
  else compareArrayLoop rec_ o ea eb m

/-- The findIndex pre-pass of compareSet: index of the first unused element of
the b array strictly equal to aVal. -/
def findExactIdx (aVal : Value) : List Value → List Nat → Nat → Option Nat
  | [], _, _ => none
  | b :: bs, used, i =>
    if !(used.contains i) && tripleEq aVal b then some i
    else findExactIdx aVal bs used (i + 1)

/-- Greedy scan of compareSet: the first unused element of the b array deeply
equal to aVal, consuming fuel of the engine and threading the memo. -/
def compareSetScan (rec_ : Value → Value → Memo → Option (Bool × Memo))
    (aVal : Value) : List Value → List Nat → Nat → Memo → Option (Option Nat × Memo)
  | [], _, _, m => some (none, m)
  | b :: bs, used, i, m =>
    if used.contains i then compareSetScan rec_ aVal bs used (i + 1) m
    else
      match rec_ aVal b m with
      | none => none
      | some (true, m') => some (some i, m')
      | some (false, m') => compareSetScan rec_ aVal bs used (i + 1) m'

/-- Outer loop of compareSet over a's elements: identity pre-pass first, then
the greedy deep scan; an unmatched element fails. -/
def compareSetLoop (rec_ : Value → Value → Memo → Option (Bool × Memo)) :
    List Value → List Value → List Nat → Memo → Option (Bool × Memo)
  | [], _, _, m => some (true, m)
  | a :: as, bArr, used, m =>
    match findExactIdx a bArr used 0 with
    | some i => compareSetLoop rec_ as bArr (i :: used) m
    | none =>
      match compareSetScan rec_ a bArr used 0 m with
      | none => none
      | some (none, m') => some (false, m')
      | some (some i, m') => compareSetLoop rec_ as bArr (i :: used) m'

/-- compareSet of the source: equal size required, then greedy first-fit
matching of a's elements against unused elements of b. -/
def compareSet (rec_ : Value → Value → Memo → Option (Bool × Memo))
    (ea eb : List Value) (m : Memo) : Option (Bool × Memo) :=
  if ea.length ≠ eb.length then some (false, m)
  else compareSetLoop rec_ ea eb [] m

/-- Greedy scan of compareMap for a non-primitive key: the first unused entry
of b whose key and value are both engine-equal to the given pair. -/
def compareMapScan (rec_ : Value → Value → Memo → Option (Bool × Memo))
    (aKey aVal : Value) :
    List (Value × Value) → List Nat → Nat → Memo → Option (Option Nat × Memo)
  | [], _, _, m => some (none, m)
  | e :: bs, used, i, m =>
    if used.contains i then compareMapScan rec_ aKey aVal bs used (i + 1) m
    else
      match rec_ aKey e.1 m with
      | none => none
      | some (false, m') => compareMapScan rec_ aKey aVal bs used (i + 1) m'
      | some (true, m') =>
        match rec_ aVal e.2 m' with
        | none => none
        | some (true, m'') => some (some i, m'')
        | some (false, m'') => compareMapScan rec_ aKey aVal bs used (i + 1) m''

/-- Outer loop of compareMap over a's entries: a primitive key is resolved in
b by direct lookup at that exact key; a non-primitive key falls back to the
greedy unused-pair scan. -/
def compareMapLoop (rec_ : Value → Value → Memo → Option (Bool × Memo)) :
    List (Value × Value) → List (Value × Value) → List Nat → Memo →
    Option (Bool × Memo)
  | [], _, _, m => some (true, m)
  | e :: as, bEntries, used, m =>
    if isPrimitiveV e.1 then
      let bVal := (mapGet bEntries e.1).getD undefinedV
      if tripleEq bVal undefinedV && !(mapHas bEntries e.1) then some (false, m)
      else
        match rec_ e.2 bVal m with
        | none => none
        | some (false, m') => some (false, m')
        | some (true, m') => compareMapLoop rec_ as bEntries used m'
    else
      match compareMapScan rec_ e.1 e.2 bEntries used 0 m with
      | none => none
      | some (none, m') => some (false, m')
      | some (some i, m') => compareMapLoop rec_ as bEntries (i :: used) m'

/-- compareMap of the source: equal size required, then the entry loop. -/
def compareMap (rec_ : Value → Value → Memo → Option (Bool × Memo))
    (ea eb : List (Value × Value)) (m : Memo) : Option (Bool × Memo) :=
  if ea.length ≠ eb.length then some (false, m)
  else compareMapLoop rec_ ea eb [] m

/-- Key loop of compareObject over a's own keys: b must own every key with an
engine-equal value; the count of matched keys is returned on success. -/
def compareObjectLoop (rec_ : Value → Value → Memo → Option (Bool × Memo))
    (oa ob : Obj) : List PropKey → Nat → Memo → Option (Option Nat × Memo)
  | [], count, m => some (some count, m)
  | k :: ks, count, m =>
    if !(hasOwnK ob k) then some (none, m)
    else
      match rec_ (getOwnD oa k) (getOwnD ob k) m with
      | none => none
      | some (false, m') => some (none, m')
      | some (true, m') => compareObjectLoop rec_ oa ob ks (count + 1) m'

/-- compareObject of the source: every own key of a must be an own key of b
with an engine-equal value, and b must have no extra own keys. -/
def compareObject (rec_ : Value → Value → Memo → Option (Bool × Memo))
    (oa ob : Obj) (m : Memo) : Option (Bool × Memo) :=
  match compareObjectLoop rec_ oa ob (ownKeys oa) 0 m with
  | none => none
  | some (none, m') => some (false, m')
  | some (some count, m') => some (decide ((ownKeys ob).length = count), m')

/-- The dispatch chain of isEqualWithMemo after the memo step (source lines
185-198): arrays with arrays, array against non-array fails, dates, regexps,
typed arrays, sets, maps, then the prototype precondition and the fallback
structured comparator. -/
def dispatchCompare (rec_ : Value → Value → Memo → Option (Bool × Memo))
    (o : EqualityOptions) (x y : Obj) (m : Memo) : Option (Bool × Memo) :=
  match x, y with
  | Obj.arr ea, Obj.arr eb => compareArray rec_ o ea eb m
  | Obj.arr _, _ => some (false, m)
  | _, Obj.arr _ => some (false, m)
  | Obj.date ta, Obj.date tb => some (compareDate ta tb, m)
  | Obj.regexp sa fa, Obj.regexp sb fb => some (compareRegExp sa fa sb fb, m)
  | Obj.typed ka ba, Obj.typed kb bb => some (compareTypedArray ka ba kb bb, m)
  | Obj.set ea, Obj.set eb => compareSet rec_ ea eb m
  | Obj.map ea, Obj.map eb => compareMap rec_ ea eb m
  | x, y =>
    if !o.allowPrototypeMismatch && decide (protoOf x ≠ protoOf y) then some (false, m)
    else compareObject rec_ x y m

/-- isEqualWithMemo of the source, with an explicit fuel parameter (the fuel
decreases at each recursion level; the public wrapper supplies enough).  The
steps mirror the source: strict-equality shortcut, NaN special case, boxed
primitive normalization, primitive check, functions by reference, memo lookup
with the optimistic in-progress insertion, dispatch, and the final overwrite
of the memo entry with the definite verdict. -/
def isEqualWithMemo : Nat → Heap → EqualityOptions → Value → Value → Memo →
    Option (Bool × Memo)
  | 0, _, _, _, _, _ => none
  | Nat.succ f, h, o, a, b, m =>
    if tripleEq a b then some (true, m)
    else if isNaNV a && isNaNV b then some (true, m)
    else
      let a1 := if o.normalizeBoxedPrimitives && isBoxedPrimitiveV h a then unboxV h a else a
      let b1 := if o.normalizeBoxedPrimitives && isBoxedPrimitiveV h b then unboxV h b else b
      if o.normalizeBoxedPrimitives && (isPrimitiveV a1 && isPrimitiveV b1) then
        some (tripleEq a1 b1, m)
      else if isPrimitiveV a1 || isPrimitiveV b1 then some (false, m)
      else if isFunctionV a1 || isFunctionV b1 then some (tripleEq a1 b1, m)
      else
        match a1, b1 with
        | Value.ref ia, Value.ref ib =>
          (match m ia ib with
          | some c => some (c, m)
          | none =>
            match dispatchCompare (fun x y mm => isEqualWithMemo f h o x y mm) o
                (heapGet h ia) (heapGet h ib) (memoSet m ia ib true) with
            | none => none
            | some (res, m2) => some (res, memoSet m2 ia ib res))
        | _, _ => some (false, m)

/-- The public isEqual: a fresh tracker, and fuel that the termination
theorem proves sufficient for closed heaps. -/
def isEqual (h : Heap) (a b : Value) (o : EqualityOptions) : Option Bool :=
  (isEqualWithMemo (h.length * h.length + 1) h o a b emptyMemo).map Prod.fst

/-- A value is valid for a heap of n objects when any reference is in
range. -/
def validV (n : Nat) : Value → Bool
  | Value.ref i => decide (i < n)
  | _ => true

/-- The values reachable in one step from an object. -/
def objVals : Obj → List Value
  | Obj.arr es => es.filterMap id
  | Obj.set es => es
  | Obj.map es => es.foldr (fun e acc => e.1 :: e.2 :: acc) []
  | Obj.obj _ fs => fs.map Prod.snd
  | _ => []

/-- A heap is closed when every object only references objects of the heap. -/
def closedHeap (h : Heap) : Bool :=
  h.all (fun o => (objVals o).all (fun v => validV h.length v))

/-- Strict equality on a value and itself is true except for NaN. -/
theorem tripleEq_self (v : Value) : tripleEq v v = !(isNaNV v) := by
  match v with
  | Value.prim Prim.undef => rfl
  | Value.prim Prim.null => rfl
  | Value.prim (Prim.bool b) => simp [tripleEq, isNaNV]
  | Value.prim (Prim.num JsNum.nan) => rfl
  | Value.prim (Prim.num (JsNum.int i)) => simp [tripleEq, isNaNV]
  | Value.prim (Prim.str s) => simp [tripleEq, isNaNV]
  | Value.prim (Prim.sym i) => simp [tripleEq, isNaNV]
  | Value.prim (Prim.bigint i) => simp [tripleEq, isNaNV]
  | Value.funref i => simp [tripleEq, isNaNV]
  | Value.ref i => simp [tripleEq, isNaNV]

/-- With any positive fuel the engine returns true at once on a value and
itself: either by the strict-equality shortcut or, for NaN, by the NaN
special case; the memo is untouched. -/
theorem isEqualWithMemo_refl (f : Nat) (h : Heap) (o : EqualityOptions) (v : Value)
    (m : Memo) : isEqualWithMemo (f + 1) h o v v m = some (true, m) := by
  by_cases hn : isNaNV v = true
  · have ht : tripleEq v v = false := by rw [tripleEq_self, hn]; rfl
    simp [isEqualWithMemo, ht, hn]
  · have hn' : isNaNV v = false := by revert hn; cases isNaNV v <;> simp
    have ht : tripleEq v v = true := by rw [tripleEq_self, hn']; rfl
    simp [isEqualWithMemo, ht]

/-- C3: for every heap, every value (primitive, function or object reference,
including references into cyclic heaps and the NaN number) and every options
configuration, isEqual applied to the value and itself returns true. -/
theorem c3_reflexivity (h : Heap) (v : Value) (o : EqualityOptions) :
    isEqual h v v o = some true := by
  unfold isEqual
  rw [isEqualWithMemo_refl]
  rfl

/-- Heap with a boxed Number 1 (object 0), the map with the boxed key
(object 1), and the map with the primitive key 1 (object 2). -/
def heapBoxedKeyMaps : Heap :=
  [Obj.boxed (BoxKind.bNum (JsNum.int 1)),
   Obj.map [(Value.ref 0, Value.prim (Prim.str "v"))],
   Obj.map [(Value.prim (Prim.num (JsNum.int 1)), Value.prim (Prim.str "v"))]]

/-- C4: symmetry fails.  With normalizeBoxedPrimitives enabled, comparing the
map keyed by the boxed Number 1 against the map keyed by the primitive 1
returns true (the non-primitive boxed key is matched by the greedy recursive
search, which normalizes it to 1), while the swapped comparison returns false
(the primitive key 1 is resolved by direct exact lookup, which does not find
the boxed key).  So isEqual(a, b) and isEqual(b, a) differ on this input. -/
theorem c4_symmetry_failure :
    isEqual heapBoxedKeyMaps (Value.ref 1) (Value.ref 2)
        { normalizeBoxedPrimitives := true } = some true ∧
    isEqual heapBoxedKeyMaps (Value.ref 2) (Value.ref 1)
        { normalizeBoxedPrimitives := true } = some false :=
  ⟨by decide, by decide⟩

/-- Heap with an empty set (object 0) and an empty map (object 1). -/
def heapSetVsMap : Heap := [Obj.set [], Obj.map []]

/-- C5 counterexample: the claim asserts that mismatched-category comparisons
return false for every options configuration; but with allowPrototypeMismatch
enabled an empty Set compared against an empty Map skips the prototype
precondition, falls through to the structured comparator, and returns true
since neither object has own keys. -/
theorem c5_counterexample :
    isEqual heapSetVsMap (Value.ref 0) (Value.ref 1)
      { allowPrototypeMismatch := true } = some true := by decide

/-- Rewriting the heap read from a successful raw lookup. -/
theorem heapGet_eq {h : Heap} {i : Nat} {x : Obj} (hx : h.get? i = some x) :
    heapGet h i = x := by unfold heapGet; rw [hx]; rfl

/-- Unfolding of the engine on two distinct object references when the memo
has no entry for the pair and normalization leaves both sides alone: the pair
is recorded in-progress (optimistic true), the dispatch chain runs, and its
verdict overwrites the entry before the frame returns. -/
theorem isEqualWithMemo_ref_step (f : Nat) (h : Heap) (o : EqualityOptions)
    (ia ib : Nat) (m : Memo) (hne : ia ≠ ib)
    (hba : (o.normalizeBoxedPrimitives && isBoxedPrimitiveV h (Value.ref ia)) = false)
    (hbb : (o.normalizeBoxedPrimitives && isBoxedPrimitiveV h (Value.ref ib)) = false)
    (hm : m ia ib = none) :
    isEqualWithMemo (f + 1) h o (Value.ref ia) (Value.ref ib) m =
      match dispatchCompare (fun x y mm => isEqualWithMemo f h o x y mm) o
          (heapGet h ia) (heapGet h ib) (memoSet m ia ib true) with
      | none => none
      | some (res, m2) => some (res, memoSet m2 ia ib res) := by
  have ht : tripleEq (Value.ref ia) (Value.ref ib) = false := by
    simp [tripleEq, hne]
  simp [isEqualWithMemo, ht, isNaNV, hba, hbb, isPrimitiveV, isFunctionV, hm]

/-- Unfolding of the engine on two distinct object references when the memo
already holds a verdict for the pair: the cached boolean is returned and the
memo is unchanged. -/
theorem isEqualWithMemo_ref_hit (f : Nat) (h : Heap) (o : EqualityOptions)
    (ia ib : Nat) (m : Memo) (c : Bool) (hne : ia ≠ ib)
    (hba : (o.normalizeBoxedPrimitives && isBoxedPrimitiveV h (Value.ref ia)) = false)
    (hbb : (o.normalizeBoxedPrimitives && isBoxedPrimitiveV h (Value.ref ib)) = false)
    (hm : m ia ib = some c) :
    isEqualWithMemo (f + 1) h o (Value.ref ia) (Value.ref ib) m = some (c, m) := by
  have ht : tripleEq (Value.ref ia) (Value.ref ib) = false := by
    simp [tripleEq, hne]
  simp [isEqualWithMemo, ht, isNaNV, hba, hbb, isPrimitiveV, isFunctionV, hm]

/-- With normalization on, a boxed reference compared against a non-boxed
reference unwraps to a primitive and fails at the primitive check, before the
tracker is consulted. -/
theorem isEqualWithMemo_norm_boxed_left (f : Nat) (h : Heap) (o : EqualityOptions)
    (ia ib : Nat) (m : Memo) (bk : BoxKind) (hne : ia ≠ ib)
    (hnorm : o.normalizeBoxedPrimitives = true)
    (hga : heapGet h ia = Obj.boxed bk)
    (hbb : isBoxedPrimitiveV h (Value.ref ib) = false) :
    isEqualWithMemo (f + 1) h o (Value.ref ia) (Value.ref ib) m = some (false, m) := by
  have ht : tripleEq (Value.ref ia) (Value.ref ib) = false := by
    simp [tripleEq, hne]
  have ha : isBoxedPrimitiveV h (Value.ref ia) = true := by
    simp [isBoxedPrimitiveV, hga]
  cases bk with
  | bStr s =>
    have hu : unboxV h (Value.ref ia) = Value.prim (Prim.str s) := by simp [unboxV, hga]
    simp [isEqualWithMemo, ht, isNaNV, hnorm, ha, hu, hbb, isPrimitiveV, isFunctionV]
  | bNum n =>
    have hu : unboxV h (Value.ref ia) = Value.prim (Prim.num n) := by simp [unboxV, hga]
    simp [isEqualWithMemo, ht, isNaNV, hnorm, ha, hu, hbb, isPrimitiveV, isFunctionV]
  | bBool b =>
    have hu : unboxV h (Value.ref ia) = Value.prim (Prim.bool b) := by simp [unboxV, hga]
    simp [isEqualWithMemo, ht, isNaNV, hnorm, ha, hu, hbb, isPrimitiveV, isFunctionV]

/-- Mirror image of the previous lemma: the right side is boxed. -/
theorem isEqualWithMemo_norm_boxed_right (f : Nat) (h : Heap) (o : EqualityOptions)
    (ia ib : Nat) (m : Memo) (bk : BoxKind) (hne : ia ≠ ib)
    (hnorm : o.normalizeBoxedPrimitives = true)
    (hgb : heapGet h ib = Obj.boxed bk)
    (hba : isBoxedPrimitiveV h (Value.ref ia) = false) :
    isEqualWithMemo (f + 1) h o (Value.ref ia) (Value.ref ib) m = some (false, m) := by
  have ht : tripleEq (Value.ref ia) (Value.ref ib) = false := by
    simp [tripleEq, hne]
  have hb : isBoxedPrimitiveV h (Value.ref ib) = true := by
    simp [isBoxedPrimitiveV, hgb]
  cases bk with
  | bStr s =>
    have hu : unboxV h (Value.ref ib) = Value.prim (Prim.str s) := by simp [unboxV, hgb]
    simp [isEqualWithMemo, ht, isNaNV, hnorm, hb, hu, hba, isPrimitiveV, isFunctionV]
  | bNum n =>
    have hu : unboxV h (Value.ref ib) = Value.prim (Prim.num n) := by simp [unboxV, hgb]
    simp [isEqualWithMemo, ht, isNaNV, hnorm, hb, hu, hba, isPrimitiveV, isFunctionV]
  | bBool b =>
    have hu : unboxV h (Value.ref ib) = Value.prim (Prim.bool b) := by simp [unboxV, hgb]
    simp [isEqualWithMemo, ht, isNaNV, hnorm, hb, hu, hba, isPrimitiveV, isFunctionV]

/-- The semantic category of an object, as classified by the dispatch chain
of the engine (the Sequence, Instant, Pattern, FixedBuffer, OrderedSet,
OrderedMap, BoxedPrimitive and PlainStructured categories of the
specification). -/
inductive Cat where
  | seqC
  | instantC
  | patternC
  | bufferC
  | osetC
  | omapC
  | boxedC
  | plainC
deriving DecidableEq, Repr

/-- Category of each object kind. -/
def catOf : Obj → Cat
  | Obj.arr _ => Cat.seqC
  | Obj.date _ => Cat.instantC
  | Obj.regexp _ _ => Cat.patternC
  | Obj.typed _ _ => Cat.bufferC
  | Obj.set _ => Cat.osetC
  | Obj.map _ => Cat.omapC
  | Obj.boxed _ => Cat.boxedC
  | Obj.obj _ _ => Cat.plainC

/-- The category an object of a given prototype tag belongs to. -/
def tagCat : ProtoTag → Cat
  | ProtoTag.arrayP => Cat.seqC
  | ProtoTag.dateP => Cat.instantC
  | ProtoTag.regexpP => Cat.patternC
  | ProtoTag.typedP _ => Cat.bufferC
  | ProtoTag.setP => Cat.osetC
  | ProtoTag.mapP => Cat.omapC
  | ProtoTag.numberP => Cat.boxedC
  | ProtoTag.stringP => Cat.boxedC
  | ProtoTag.booleanP => Cat.boxedC
  | ProtoTag.plainP _ => Cat.plainC

/-- The prototype tag determines the category. -/
theorem catOf_eq_tagCat (x : Obj) : catOf x = tagCat (protoOf x) := by
  cases x with
  | boxed bk => cases bk <;> rfl
  | _ => rfl

/-- Objects of different categories have different prototype tags. -/
theorem protoOf_ne_of_catOf_ne {x y : Obj} (hc : catOf x ≠ catOf y) :
    protoOf x ≠ protoOf y := by
  intro hp
  exact hc (by rw [catOf_eq_tagCat, catOf_eq_tagCat, hp])

/-- An object classifies as boxed exactly when it is a boxed primitive. -/
theorem isBoxed_of_heapGet (h : Heap) (i : Nat) (x : Obj) (hx : heapGet h i = x) :
    isBoxedPrimitiveV h (Value.ref i) = decide (catOf x = Cat.boxedC) := by
  cases x <;> simp [isBoxedPrimitiveV, hx, catOf]

/-- The dispatch chain returns false on objects of different categories when
prototype-mismatch tolerance is off: arrays fail against non-arrays directly,
and all other mixed pairs fail the prototype precondition. -/
theorem dispatchCompare_catne (rec_ : Value → Value → Memo → Option (Bool × Memo))
    (o : EqualityOptions) (x y : Obj) (m : Memo)
    (hallow : o.allowPrototypeMismatch = false) (hcat : catOf x ≠ catOf y) :
    dispatchCompare rec_ o x y m = some (false, m) := by
  have hp := protoOf_ne_of_catOf_ne hcat
  cases x <;> cases y <;> simp_all [dispatchCompare, catOf]

/-- An array dispatched against a non-array returns false under every options
configuration. -/
theorem dispatchCompare_arr_ne (rec_ : Value → Value → Memo → Option (Bool × Memo))
    (o : EqualityOptions) (es : List (Option Value)) (y : Obj) (m : Memo)
    (hcat : catOf y ≠ Cat.seqC) :
    dispatchCompare rec_ o (Obj.arr es) y m = some (false, m) := by
  cases y <;> simp_all [dispatchCompare, catOf]

/-- An object of the boxed category is a boxed primitive. -/
theorem eq_boxed_of_catOf (x : Obj) (hx : catOf x = Cat.boxedC) :
    ∃ bk, x = Obj.boxed bk := by
  cases x <;> simp_all [catOf]

/-- The heap [[1, 2] as array object 0; plain object 1 with string keys 0 and
1 mapped to 1 and 2]. -/
def heapArrVsObj : Heap :=
  [Obj.arr [some (Value.prim (Prim.num (JsNum.int 1))),
            some (Value.prim (Prim.num (JsNum.int 2)))],
   Obj.obj ObjProto.objectP
     [(PropKey.str "0", Value.prim (Prim.num (JsNum.int 1))),
      (PropKey.str "1", Value.prim (Prim.num (JsNum.int 2)))]]

/-- C5 (amended): mismatched-category comparisons of two objects return false
whenever allowPrototypeMismatch is false (in particular the two listed
examples, arrays against plain objects and sets against maps); moreover a
Sequence compared against a non-Sequence returns false under every options
configuration.  (With allowPrototypeMismatch enabled a non-array category
mismatch can compare true, see the counterexample.) -/
theorem c5_mismatched_categories :
    (∀ (h : Heap) (o : EqualityOptions) (ia ib : Nat) (x y : Obj),
      o.allowPrototypeMismatch = false →
      h.get? ia = some x → h.get? ib = some y → catOf x ≠ catOf y →
      isEqual h (Value.ref ia) (Value.ref ib) o = some false) ∧
    (∀ (h : Heap) (o : EqualityOptions) (ia ib : Nat) (es : List (Option Value)) (y : Obj),
      h.get? ia = some (Obj.arr es) → h.get? ib = some y → catOf y ≠ Cat.seqC →
      isEqual h (Value.ref ia) (Value.ref ib) o = some false) ∧
    isEqual heapArrVsObj (Value.ref 0) (Value.ref 1) {} = some false ∧
    isEqual heapSetVsMap (Value.ref 0) (Value.ref 1) {} = some false := by
  refine ⟨?_, ?_, by decide, by decide⟩
  · intro h o ia ib x y hallow hga hgb hcat
    have hxa := heapGet_eq hga
    have hxb := heapGet_eq hgb
    have hne : ia ≠ ib := by
      intro he
      subst he
      rw [hga] at hgb
      injection hgb with h'
      exact hcat (by rw [h'])
    by_cases hnx : catOf x = Cat.boxedC
    · have hny : catOf y ≠ Cat.boxedC := by
        rw [hnx] at hcat
        exact fun hy => hcat hy.symm
      have hbb : isBoxedPrimitiveV h (Value.ref ib) = false := by
        rw [isBoxed_of_heapGet h ib y hxb]
        simp [hny]
      obtain ⟨bk, rfl⟩ := eq_boxed_of_catOf x hnx
      by_cases hnorm : o.normalizeBoxedPrimitives = true
      · unfold isEqual
        rw [isEqualWithMemo_norm_boxed_left _ _ _ _ _ _ bk hne hnorm hxa hbb]
        rfl
      · have hnorm' : o.normalizeBoxedPrimitives = false := by
          revert hnorm; cases o.normalizeBoxedPrimitives <;> simp
        unfold isEqual
        rw [isEqualWithMemo_ref_step _ _ _ _ _ _ hne (by rw [hnorm']; rfl)
          (by rw [hnorm']; rfl) rfl]
        rw [hxa, hxb, dispatchCompare_catne _ _ _ _ _ hallow hcat]
        rfl
    · by_cases hny : catOf y = Cat.boxedC
      · have hba : isBoxedPrimitiveV h (Value.ref ia) = false := by
          rw [isBoxed_of_heapGet h ia x hxa]
          simp [hnx]
        obtain ⟨bk, rfl⟩ := eq_boxed_of_catOf y hny
        by_cases hnorm : o.normalizeBoxedPrimitives = true
        · unfold isEqual
          rw [isEqualWithMemo_norm_boxed_right _ _ _ _ _ _ bk hne hnorm hxb hba]
          rfl
        · have hnorm' : o.normalizeBoxedPrimitives = false := by
            revert hnorm; cases o.normalizeBoxedPrimitives <;> simp
          unfold isEqual
          rw [isEqualWithMemo_ref_step _ _ _ _ _ _ hne (by rw [hnorm']; rfl)
            (by rw [hnorm']; rfl) rfl]
          rw [hxa, hxb, dispatchCompare_catne _ _ _ _ _ hallow hcat]
          rfl
      · have hba : isBoxedPrimitiveV h (Value.ref ia) = false := by
          rw [isBoxed_of_heapGet h ia x hxa]
          simp [hnx]
        have hbb : isBoxedPrimitiveV h (Value.ref ib) = false := by
          rw [isBoxed_of_heapGet h ib y hxb]
          simp [hny]
        unfold isEqual
        rw [isEqualWithMemo_ref_step _ _ _ _ _ _ hne (by rw [hba]; simp)
          (by rw [hbb]; simp) rfl]
        rw [hxa, hxb, dispatchCompare_catne _ _ _ _ _ hallow hcat]
        rfl
  · intro h o ia ib es y hga hgb hcat
    have hxa := heapGet_eq hga
    have hxb := heapGet_eq hgb
    have hne : ia ≠ ib := by
      intro he
      subst he
      rw [hga] at hgb
      injection hgb with h'
      rw [← h'] at hcat
      exact hcat rfl
    have hba : isBoxedPrimitiveV h (Value.ref ia) = false := by
      rw [isBoxed_of_heapGet h ia _ hxa]
      simp [catOf]
    by_cases hny : catOf y = Cat.boxedC
    · obtain ⟨bk, rfl⟩ := eq_boxed_of_catOf y hny
      by_cases hnorm : o.normalizeBoxedPrimitives = true
      · unfold isEqual
        rw [isEqualWithMemo_norm_boxed_right _ _ _ _ _ _ bk hne hnorm hxb hba]
        rfl
      · have hnorm' : o.normalizeBoxedPrimitives = false := by
          revert hnorm; cases o.normalizeBoxedPrimitives <;> simp
        unfold isEqual
        rw [isEqualWithMemo_ref_step _ _ _ _ _ _ hne (by rw [hnorm']; rfl)
          (by rw [hnorm']; rfl) rfl]
        rw [hxa, hxb, dispatchCompare_arr_ne _ _ _ _ _ hcat]
        rfl
    · have hbb : isBoxedPrimitiveV h (Value.ref ib) = false := by
        rw [isBoxed_of_heapGet h ib y hxb]
        simp [hny]
      unfold isEqual
      rw [isEqualWithMemo_ref_step _ _ _ _ _ _ hne (by rw [hba]; simp)
        (by rw [hbb]; simp) rfl]
      rw [hxa, hxb, dispatchCompare_arr_ne _ _ _ _ _ hcat]
      rfl

/-- Witness for the amended C5 statement at concrete inputs: the empty set
against the empty map with default options. -/
theorem c5_mismatched_categories_witness :
    (({} : EqualityOptions).allowPrototypeMismatch = false ∧
      heapSetVsMap.get? 0 = some (Obj.set []) ∧
      heapSetVsMap.get? 1 = some (Obj.map []) ∧
      catOf (Obj.set []) ≠ catOf (Obj.map [])) ∧
    isEqual heapSetVsMap (Value.ref 0) (Value.ref 1) {} = some false :=
  ⟨⟨rfl, rfl, rfl, by decide⟩,
    c5_mismatched_categories.1 heapSetVsMap {} 0 1 _ _ rfl rfl rfl (by decide)⟩

/-- The byte loop decides list equality on equal-length byte lists. -/
theorem bytesLoop_eq_true (ba : List Nat) : ∀ (bb : List Nat), ba.length = bb.length →
    (bytesLoop ba bb = true ↔ ba = bb) := by
  induction ba with
  | nil =>
    intro bb hl
    cases bb with
    | nil => simp [bytesLoop]
    | cons b bs => simp at hl
  | cons a as ih =>
    intro bb hl
    cases bb with
    | nil => simp at hl
    | cons b bs =>
      have hl' : as.length = bs.length := by simpa using hl
      simp [bytesLoop, ih bs hl']

/-- compareTypedArray decides the conjunction of kind equality and byte
equality. -/
theorem compareTypedArray_iff (ka kb : TAKind) (ba bb : List Nat) :
    (compareTypedArray ka ba kb bb = true ↔ ka = kb ∧ ba = bb) := by
  unfold compareTypedArray
  by_cases hk : ka = kb
  · by_cases hl : ba.length = bb.length
    · simp [hk, hl, bytesLoop_eq_true ba bb hl]
    · simp only [hk]
      simp [hl]
      intro h
      exact absurd (by rw [h]) hl
  · simp [hk]

/-- C7: two typed binary buffers compare equal exactly when they carry the
same element-kind tag and identical underlying bytes (the same byte length
and byte-for-byte equal); in particular the same bytes under a different
element-kind tag compare false, and equal kind plus equal bytes compare true,
for every options configuration. -/
theorem c7_fixed_buffer (h : Heap) (o : EqualityOptions) (ia ib : Nat)
    (ka kb : TAKind) (ba bb : List Nat) (hne : ia ≠ ib)
    (hga : h.get? ia = some (Obj.typed ka ba))
    (hgb : h.get? ib = some (Obj.typed kb bb)) :
    (isEqual h (Value.ref ia) (Value.ref ib) o = some true ↔ ka = kb ∧ ba = bb) := by
  have hxa := heapGet_eq hga
  have hxb := heapGet_eq hgb
  have hba : isBoxedPrimitiveV h (Value.ref ia) = false := by
    rw [isBoxed_of_heapGet h ia _ hxa]
    simp [catOf]
  have hbb : isBoxedPrimitiveV h (Value.ref ib) = false := by
    rw [isBoxed_of_heapGet h ib _ hxb]
    simp [catOf]
  unfold isEqual
  rw [isEqualWithMemo_ref_step _ _ _ _ _ _ hne (by rw [hba]; simp)
    (by rw [hbb]; simp) rfl]
  rw [hxa, hxb]
  simp only [dispatchCompare]
  simp [compareTypedArray_iff]

/-- A key occurring among the fields of a plain object is an own property. -/
theorem hasOwnK_obj_of_mem (p : ObjProto) (fs : List (PropKey × Value)) (k : PropKey)
    (hk : k ∈ fs.map Prod.fst) : hasOwnK (Obj.obj p fs) k = true := by
  obtain ⟨⟨k1, v⟩, hf, hfk⟩ := List.mem_map.mp hk
  simp only [] at hfk
  subst hfk
  simp [hasOwnK, getOwn, List.find?_isSome]
  exact ⟨v, hf⟩

/-- The key loop of the fallback comparator succeeds on two plain objects
with identical field lists, leaving the memo unchanged. -/
theorem compareObjectLoop_refl (f : Nat) (h : Heap) (o : EqualityOptions)
    (pa pb : ObjProto) (fs : List (PropKey × Value)) :
    ∀ (ks : List PropKey), (∀ k ∈ ks, k ∈ fs.map Prod.fst) →
    ∀ (count : Nat) (m : Memo),
    compareObjectLoop (fun x y mm => isEqualWithMemo (f + 1) h o x y mm)
        (Obj.obj pa fs) (Obj.obj pb fs) ks count m =
      some (some (count + ks.length), m) := by
  intro ks
  induction ks with
  | nil =>
    intro _ count m
    simp [compareObjectLoop]
  | cons k ks ih =>
    intro hks count m
    have hmem : k ∈ fs.map Prod.fst := hks k (by simp)
    have hown : hasOwnK (Obj.obj pb fs) k = true := hasOwnK_obj_of_mem pb fs k hmem
    have hval : getOwnD (Obj.obj pa fs) k = getOwnD (Obj.obj pb fs) k := rfl
    have harith : count + 1 + ks.length = count + (ks.length + 1) := by omega
    simp [compareObjectLoop, hown, hval, isEqualWithMemo_refl,
      ih (fun k hk => hks k (by simp [hk])) (count + 1) m, harith]

/-- The fallback comparator returns true on two plain objects with identical
field lists (whatever their prototypes), leaving the memo unchanged. -/
theorem compareObject_refl (f : Nat) (h : Heap) (o : EqualityOptions)
    (pa pb : ObjProto) (fs : List (PropKey × Value)) (m : Memo) :
    compareObject (fun x y mm => isEqualWithMemo (f + 1) h o x y mm)
      (Obj.obj pa fs) (Obj.obj pb fs) m = some (true, m) := by
  unfold compareObject
  rw [show ownKeys (Obj.obj pa fs) = fs.map Prod.fst from rfl]
  rw [compareObjectLoop_refl f h o pa pb fs (fs.map Prod.fst) (fun k hk => hk) 0 m]
  simp [ownKeys]

/-- C8: when allowPrototypeMismatch is false, two plain structured objects
with different prototypes compare false outright, whatever their fields;
when it is true, two plain objects with identical own keys and values but
different prototypes compare true. -/
theorem c8_prototype :
    (∀ (h : Heap) (o : EqualityOptions) (ia ib : Nat) (pa pb : ObjProto)
      (fa fb : List (PropKey × Value)),
      o.allowPrototypeMismatch = false → pa ≠ pb →
      h.get? ia = some (Obj.obj pa fa) → h.get? ib = some (Obj.obj pb fb) →
      isEqual h (Value.ref ia) (Value.ref ib) o = some false) ∧
    (∀ (h : Heap) (o : EqualityOptions) (ia ib : Nat) (pa pb : ObjProto)
      (fs : List (PropKey × Value)),
      o.allowPrototypeMismatch = true → ia ≠ ib →
      h.get? ia = some (Obj.obj pa fs) → h.get? ib = some (Obj.obj pb fs) →
      isEqual h (Value.ref ia) (Value.ref ib) o = some true) := by
  constructor
  · intro h o ia ib pa pb fa fb hallow hpab hga hgb
    have hxa := heapGet_eq hga
    have hxb := heapGet_eq hgb
    have hne : ia ≠ ib := by
      intro he
      subst he
      rw [hga] at hgb
      injection hgb with h'
      injection h' with h1 h2
      exact hpab h1
    have hba : isBoxedPrimitiveV h (Value.ref ia) = false := by
      rw [isBoxed_of_heapGet h ia _ hxa]
      simp [catOf]
    have hbb : isBoxedPrimitiveV h (Value.ref ib) = false := by
      rw [isBoxed_of_heapGet h ib _ hxb]
      simp [catOf]
    unfold isEqual
    rw [isEqualWithMemo_ref_step _ _ _ _ _ _ hne (by rw [hba]; simp)
      (by rw [hbb]; simp) rfl]
    rw [hxa, hxb]
    simp only [dispatchCompare]
    simp [hallow, protoOf, hpab]
  · intro h o ia ib pa pb fs hallow hne hga hgb
    have hxa := heapGet_eq hga
    have hxb := heapGet_eq hgb
    have hba : isBoxedPrimitiveV h (Value.ref ia) = false := by
      rw [isBoxed_of_heapGet h ia _ hxa]
      simp [catOf]
    have hbb : isBoxedPrimitiveV h (Value.ref ib) = false := by
      rw [isBoxed_of_heapGet h ib _ hxb]
      simp [catOf]
    have hlt : ia < h.length := (List.get?_eq_some.mp hga).1
    obtain ⟨g, hg⟩ : ∃ g, h.length * h.length = g + 1 := by
      have hpos : 0 < h.length * h.length :=
        Nat.mul_pos (Nat.pos_of_ne_zero (by omega)) (Nat.pos_of_ne_zero (by omega))
      exact ⟨h.length * h.length - 1, by omega⟩
    unfold isEqual
    rw [isEqualWithMemo_ref_step _ _ _ _ _ _ hne (by rw [hba]; simp)
      (by rw [hbb]; simp) rfl]
    rw [hxa, hxb]
    simp only [dispatchCompare]
    rw [if_neg (by simp [hallow])]
    rw [hg, compareObject_refl]
    rfl

/-- Witness heap for C8: a null-prototype object with field x mapped to 1 and
a plain object with the same field. -/
def heapProtoPair : Heap :=
  [Obj.obj ObjProto.nullP [(PropKey.str "x", Value.prim (Prim.num (JsNum.int 1)))],
   Obj.obj ObjProto.objectP [(PropKey.str "x", Value.prim (Prim.num (JsNum.int 1)))]]

/-- Witness for C8 at concrete inputs: the null-prototype object against the
plain object with identical fields compares false by default and true with
allowPrototypeMismatch. -/
theorem c8_prototype_witness :
    (({} : EqualityOptions).allowPrototypeMismatch = false ∧
      ObjProto.nullP ≠ ObjProto.objectP ∧
      isEqual heapProtoPair (Value.ref 0) (Value.ref 1) {} = some false) ∧
    (({ allowPrototypeMismatch := true } : EqualityOptions).allowPrototypeMismatch = true ∧
      (0 : Nat) ≠ 1 ∧
      isEqual heapProtoPair (Value.ref 0) (Value.ref 1)
        { allowPrototypeMismatch := true } = some true) :=
  ⟨⟨rfl, by decide,
      c8_prototype.1 heapProtoPair {} 0 1 ObjProto.nullP ObjProto.objectP _ _ rfl
        (by decide) rfl rfl⟩,
    ⟨rfl, by decide,
      c8_prototype.2 heapProtoPair { allowPrototypeMismatch := true } 0 1
        ObjProto.nullP ObjProto.objectP _ rfl (by decide) rfl rfl⟩⟩

/-- C10: with normalizeBoxedPrimitives off, two distinct boxed Number objects
compare equal whatever their underlying numeric values, and likewise two
boxed Booleans with different values: no dispatch branch handles boxed
primitives, their prototypes match, and the fallback comparator sees no own
keys on either object. -/
theorem c10_boxed_default :
    (∀ (h : Heap) (o : EqualityOptions) (ia ib : Nat) (x y : JsNum),
      o.normalizeBoxedPrimitives = false → ia ≠ ib →
      h.get? ia = some (Obj.boxed (BoxKind.bNum x)) →
      h.get? ib = some (Obj.boxed (BoxKind.bNum y)) →
      isEqual h (Value.ref ia) (Value.ref ib) o = some true) ∧
    (∀ (h : Heap) (o : EqualityOptions) (ia ib : Nat) (x y : Bool),
      o.normalizeBoxedPrimitives = false → ia ≠ ib →
      h.get? ia = some (Obj.boxed (BoxKind.bBool x)) →
      h.get? ib = some (Obj.boxed (BoxKind.bBool y)) →
      isEqual h (Value.ref ia) (Value.ref ib) o = some true) := by
  constructor
  · intro h o ia ib x y hnorm hne hga hgb
    have hxa := heapGet_eq hga
    have hxb := heapGet_eq hgb
    unfold isEqual
    rw [isEqualWithMemo_ref_step _ _ _ _ _ _ hne (by rw [hnorm]; rfl)
      (by rw [hnorm]; rfl) rfl]
    rw [hxa, hxb]
    simp only [dispatchCompare]
    simp [protoOf, compareObject, compareObjectLoop, ownKeys]
  · intro h o ia ib x y hnorm hne hga hgb
    have hxa := heapGet_eq hga
    have hxb := heapGet_eq hgb
    unfold isEqual
    rw [isEqualWithMemo_ref_step _ _ _ _ _ _ hne (by rw [hnorm]; rfl)
      (by rw [hnorm]; rfl) rfl]
    rw [hxa, hxb]
    simp only [dispatchCompare]
    simp [protoOf, compareObject, compareObjectLoop, ownKeys]

/-- Witness heap for C10: boxed Numbers 1 and 2, boxed Booleans true and
false. -/
def heapBoxedPairs : Heap :=
  [Obj.boxed (BoxKind.bNum (JsNum.int 1)), Obj.boxed (BoxKind.bNum (JsNum.int 2)),
   Obj.boxed (BoxKind.bBool true), Obj.boxed (BoxKind.bBool false)]

/-- Witness for C10 at concrete inputs: boxed Number 1 against boxed Number 2
and boxed Boolean true against boxed Boolean false, default options. -/
theorem c10_boxed_default_witness :
    (({} : EqualityOptions).normalizeBoxedPrimitives = false ∧ (0 : Nat) ≠ 1 ∧
      isEqual heapBoxedPairs (Value.ref 0) (Value.ref 1) {} = some true) ∧
    ((2 : Nat) ≠ 3 ∧
      isEqual heapBoxedPairs (Value.ref 2) (Value.ref 3) {} = some true) :=
  ⟨⟨rfl, by decide,
      c10_boxed_default.1 heapBoxedPairs {} 0 1 (JsNum.int 1) (JsNum.int 2) rfl
        (by decide) rfl rfl⟩,
    ⟨by decide,
      c10_boxed_default.2 heapBoxedPairs {} 2 3 true false rfl (by decide) rfl rfl⟩⟩

/-- Witness heap for C7: two Uint8 views over bytes 1, 2 and an Int8 view
over the same bytes. -/
def heapTypedTriple : Heap :=
  [Obj.typed TAKind.uint8 [1, 2], Obj.typed TAKind.uint8 [1, 2],
   Obj.typed TAKind.int8 [1, 2]]

/-- Witness for C7 at concrete inputs: equal kind and bytes compare true;
the same bytes under a different element-kind tag compare false. -/
theorem c7_fixed_buffer_witness :
    ((0 : Nat) ≠ 1 ∧
      (isEqual heapTypedTriple (Value.ref 0) (Value.ref 1) {} = some true ↔
        TAKind.uint8 = TAKind.uint8 ∧ ([1, 2] : List Nat) = [1, 2])) ∧
    ((0 : Nat) ≠ 2 ∧
      (isEqual heapTypedTriple (Value.ref 0) (Value.ref 2) {} = some true ↔
        TAKind.uint8 = TAKind.int8 ∧ ([1, 2] : List Nat) = [1, 2])) :=
  ⟨⟨by decide,
      c7_fixed_buffer heapTypedTriple {} 0 1 TAKind.uint8 TAKind.uint8 [1, 2] [1, 2]
        (by decide) rfl rfl⟩,
    ⟨by decide,
      c7_fixed_buffer heapTypedTriple {} 0 2 TAKind.uint8 TAKind.int8 [1, 2] [1, 2]
        (by decide) rfl rfl⟩⟩

/-- Memo extension: every entry present in the first tracker is present with
the same verdict in the second. -/
def MemoLE (m m' : Memo) : Prop := ∀ x y v, m x y = some v → m' x y = some v

theorem memoLE_refl (m : Memo) : MemoLE m m := fun _ _ _ hv => hv

theorem memoLE_trans {m1 m2 m3 : Memo} (h12 : MemoLE m1 m2) (h23 : MemoLE m2 m3) :
    MemoLE m1 m3 := fun x y v hv => h23 x y v (h12 x y v hv)

/-- Reading a pair other than the one written. -/
theorem memoSet_ne {m : Memo} {x y : Nat} {v : Bool} {a b : Nat}
    (hab : ¬(a = x ∧ b = y)) : memoSet m x y v a b = m a b := by
  unfold memoSet
  rw [if_neg]
  simp [hab]

/-- Reading the pair just written. -/
theorem memoSet_self (m : Memo) (x y : Nat) (v : Bool) :
    memoSet m x y v x y = some v := by simp [memoSet]

/-- Writing an absent pair only extends the tracker. -/
theorem memoLE_set_of_none {m : Memo} {x y : Nat} {v : Bool} (hm : m x y = none) :
    MemoLE m (memoSet m x y v) := by
  intro a b w hw
  by_cases hab : a = x ∧ b = y
  · obtain ⟨rfl, rfl⟩ := hab
    rw [hm] at hw
    cases hw
  · rw [memoSet_ne hab]
    exact hw

/-- A recursion argument only extends the tracker on success. -/
def RecMono (rec_ : Value → Value → Memo → Option (Bool × Memo)) : Prop :=
  ∀ a b m r m', rec_ a b m = some (r, m') → MemoLE m m'

/-- The array element loop only extends the tracker. -/
theorem compareArrayLoop_memoLE {rec_ : Value → Value → Memo → Option (Bool × Memo)}
    (o : EqualityOptions) (hrec : RecMono rec_) :
    ∀ (as bs : List (Option Value)) (m : Memo) (r : Bool) (m' : Memo),
    compareArrayLoop rec_ o as bs m = some (r, m') → MemoLE m m' := by
  intro as
  induction as with
  | nil =>
    intro bs m r m' h
    simp only [compareArrayLoop] at h
    cases h
    exact memoLE_refl m
  | cons a as ih =>
    intro bs m r m' h
    cases bs with
    | nil =>
      simp only [compareArrayLoop] at h
      cases h
      exact memoLE_refl m
    | cons b bs =>
      simp only [compareArrayLoop] at h
      split at h
      · cases h
        exact memoLE_refl m
      · split at h
        · exact ih bs m r m' h
        · split at h
          · cases h
          · rename_i m1 heq
            exact memoLE_trans (hrec _ _ _ _ _ heq) (ih bs m1 r m' h)
          · rename_i m1 heq
            cases h
            exact hrec _ _ _ _ _ heq

/-- compareArray only extends the tracker. -/
theorem compareArray_memoLE {rec_ : Value → Value → Memo → Option (Bool × Memo)}
    (o : EqualityOptions) (hrec : RecMono rec_) (ea eb : List (Option Value))
    (m : Memo) (r : Bool) (m' : Memo)
    (h : compareArray rec_ o ea eb m = some (r, m')) : MemoLE m m' := by
  unfold compareArray at h
  split at h
  · cases h
    exact memoLE_refl m
  · exact compareArrayLoop_memoLE o hrec ea eb m r m' h

/-- The greedy set scan only extends the tracker. -/
theorem compareSetScan_memoLE {rec_ : Value → Value → Memo → Option (Bool × Memo)}
    (hrec : RecMono rec_) (aVal : Value) :
    ∀ (bs : List Value) (used : List Nat) (i : Nat) (m : Memo) (res : Option Nat)
      (m' : Memo),
    compareSetScan rec_ aVal bs used i m = some (res, m') → MemoLE m m' := by
  intro bs
  induction bs with
  | nil =>
    intro used i m res m' h
    simp only [compareSetScan] at h
    cases h
    exact memoLE_refl m
  | cons b bs ih =>
    intro used i m res m' h
    simp only [compareSetScan] at h
    split at h
    · exact ih _ _ m res m' h
    · split at h
      · cases h
      · rename_i m1 heq
        cases h
        exact hrec _ _ _ _ _ heq
      · rename_i m1 heq
        exact memoLE_trans (hrec _ _ _ _ _ heq) (ih _ _ m1 res m' h)

/-- The outer set loop only extends the tracker. -/
theorem compareSetLoop_memoLE {rec_ : Value → Value → Memo → Option (Bool × Memo)}
    (hrec : RecMono rec_) :
    ∀ (as bArr : List Value) (used : List Nat) (m : Memo) (r : Bool) (m' : Memo),
    compareSetLoop rec_ as bArr used m = some (r, m') → MemoLE m m' := by
  intro as
  induction as with
  | nil =>
    intro bArr used m r m' h
    simp only [compareSetLoop] at h
    cases h
    exact memoLE_refl m
  | cons a as ih =>
    intro bArr used m r m' h
    simp only [compareSetLoop] at h
    split at h
    · exact ih _ _ m r m' h
    · split at h
      · cases h
      · rename_i m1 heq
        cases h
        exact compareSetScan_memoLE hrec _ _ _ _ _ _ _ heq
      · rename_i i m1 heq
        exact memoLE_trans (compareSetScan_memoLE hrec _ _ _ _ _ _ _ heq)
          (ih _ _ m1 r m' h)

/-- compareSet only extends the tracker. -/
theorem compareSet_memoLE {rec_ : Value → Value → Memo → Option (Bool × Memo)}
    (hrec : RecMono rec_) (ea eb : List Value) (m : Memo) (r : Bool) (m' : Memo)
    (h : compareSet rec_ ea eb m = some (r, m')) : MemoLE m m' := by
  unfold compareSet at h
  split at h
  · cases h
    exact memoLE_refl m
  · exact compareSetLoop_memoLE hrec ea eb [] m r m' h

/-- The greedy map scan only extends the tracker. -/
theorem compareMapScan_memoLE {rec_ : Value → Value → Memo → Option (Bool × Memo)}
    (hrec : RecMono rec_) (aKey aVal : Value) :
    ∀ (bs : List (Value × Value)) (used : List Nat) (i : Nat) (m : Memo)
      (res : Option Nat) (m' : Memo),
    compareMapScan rec_ aKey aVal bs used i m = some (res, m') → MemoLE m m' := by
  intro bs
  induction bs with
  | nil =>
    intro used i m res m' h
    simp only [compareMapScan] at h
    cases h
    exact memoLE_refl m
  | cons e bs ih =>
    intro used i m res m' h
    simp only [compareMapScan] at h
    split at h
    · exact ih _ _ m res m' h
    · split at h
      · cases h
      · rename_i m1 heq
        exact memoLE_trans (hrec _ _ _ _ _ heq) (ih _ _ m1 res m' h)
      · rename_i m1 heq
        split at h
        · cases h
        · rename_i m2 heq2
          cases h
          exact memoLE_trans (hrec _ _ _ _ _ heq) (hrec _ _ _ _ _ heq2)
        · rename_i m2 heq2
          exact memoLE_trans (hrec _ _ _ _ _ heq)
            (memoLE_trans (hrec _ _ _ _ _ heq2) (ih _ _ m2 res m' h))

/-- The outer map loop only extends the tracker. -/
theorem compareMapLoop_memoLE {rec_ : Value → Value → Memo → Option (Bool × Memo)}
    (hrec : RecMono rec_) :
    ∀ (as bEntries : List (Value × Value)) (used : List Nat) (m : Memo) (r : Bool)
      (m' : Memo),
    compareMapLoop rec_ as bEntries used m = some (r, m') → MemoLE m m' := by
  intro as
  induction as with
  | nil =>
    intro bEntries used m r m' h
    simp only [compareMapLoop] at h
    cases h
    exact memoLE_refl m
  | cons e as ih =>
    intro bEntries used m r m' h
    simp only [compareMapLoop] at h
    split at h
    · split at h
      · cases h
        exact memoLE_refl m
      · split at h
        · cases h
        · rename_i m1 heq
          cases h
          exact hrec _ _ _ _ _ heq
        · rename_i m1 heq
          exact memoLE_trans (hrec _ _ _ _ _ heq) (ih _ _ m1 r m' h)
    · split at h
      · cases h
      · rename_i m1 heq
        cases h
        exact compareMapScan_memoLE hrec _ _ _ _ _ _ _ _ heq
      · rename_i i m1 heq
        exact memoLE_trans (compareMapScan_memoLE hrec _ _ _ _ _ _ _ _ heq)
          (ih _ _ m1 r m' h)

/-- compareMap only extends the tracker. -/
theorem compareMap_memoLE {rec_ : Value → Value → Memo → Option (Bool × Memo)}
    (hrec : RecMono rec_) (ea eb : List (Value × Value)) (m : Memo) (r : Bool)
    (m' : Memo) (h : compareMap rec_ ea eb m = some (r, m')) : MemoLE m m' := by
  unfold compareMap at h
  split at h
  · cases h
    exact memoLE_refl m
  · exact compareMapLoop_memoLE hrec ea eb [] m r m' h

/-- The object key loop only extends the tracker. -/
theorem compareObjectLoop_memoLE {rec_ : Value → Value → Memo → Option (Bool × Memo)}
    (hrec : RecMono rec_) (oa ob : Obj) :
    ∀ (ks : List PropKey) (count : Nat) (m : Memo) (res : Option Nat) (m' : Memo),
    compareObjectLoop rec_ oa ob ks count m = some (res, m') → MemoLE m m' := by
  intro ks
  induction ks with
  | nil =>
    intro count m res m' h
    simp only [compareObjectLoop] at h
    cases h
    exact memoLE_refl m
  | cons k ks ih =>
    intro count m res m' h
    simp only [compareObjectLoop] at h
    split at h
    · cases h
      exact memoLE_refl m
    · split at h
      · cases h
      · rename_i m1 heq
        cases h
        exact hrec _ _ _ _ _ heq
      · rename_i m1 heq
        exact memoLE_trans (hrec _ _ _ _ _ heq) (ih _ m1 res m' h)

/-- compareObject only extends the tracker. -/
theorem compareObject_memoLE {rec_ : Value → Value → Memo → Option (Bool × Memo)}
    (hrec : RecMono rec_) (oa ob : Obj) (m : Memo) (r : Bool) (m' : Memo)
    (h : compareObject rec_ oa ob m = some (r, m')) : MemoLE m m' := by
  unfold compareObject at h
  cases hloop : compareObjectLoop rec_ oa ob (ownKeys oa) 0 m with
  | none =>
    rw [hloop] at h
    cases h
  | some p =>
    rw [hloop] at h
    obtain ⟨res, m1⟩ := p
    cases res with
    | none =>
      cases h
      exact compareObjectLoop_memoLE hrec oa ob _ 0 m _ _ hloop
    | some count =>
      cases h
      exact compareObjectLoop_memoLE hrec oa ob _ 0 m _ _ hloop

/-- The whole dispatch chain only extends the tracker. -/
theorem dispatchCompare_memoLE {rec_ : Value → Value → Memo → Option (Bool × Memo)}
    (o : EqualityOptions) (hrec : RecMono rec_) (x y : Obj) (m : Memo) (r : Bool)
    (m' : Memo) (h : dispatchCompare rec_ o x y m = some (r, m')) : MemoLE m m' := by
  cases x <;> cases y <;> simp only [dispatchCompare] at h <;>
    first
    | (cases h; exact memoLE_refl m)
    | exact compareArray_memoLE o hrec _ _ _ _ _ h
    | exact compareSet_memoLE hrec _ _ _ _ _ h
    | exact compareMap_memoLE hrec _ _ _ _ _ h
    | (split at h <;>
        first
        | (cases h; exact memoLE_refl m)
        | exact compareObject_memoLE hrec _ _ _ _ _ h)

/-- The final act of a frame that pushed its pair in-progress: whatever the
dispatch verdict, overwriting the pair preserves every entry of the memo the
frame received (the pair itself was absent from it). -/
theorem engineFinish_memoLE {rec_ : Value → Value → Memo → Option (Bool × Memo)}
    {o : EqualityOptions} {h : Heap} {ia ib : Nat} {m m2 : Memo} {res : Bool}
    (hrec : RecMono rec_) (hmnone : m ia ib = none)
    (heq : dispatchCompare rec_ o (heapGet h ia) (heapGet h ib)
      (memoSet m ia ib true) = some (res, m2)) :
    MemoLE m (memoSet m2 ia ib res) := by
  have h1 : MemoLE m (memoSet m ia ib true) := memoLE_set_of_none hmnone
  have h2 : MemoLE (memoSet m ia ib true) m2 :=
    dispatchCompare_memoLE o hrec _ _ _ _ _ heq
  intro x y v hv
  by_cases hxy : x = ia ∧ y = ib
  · obtain ⟨rfl, rfl⟩ := hxy
    rw [hmnone] at hv
    cases hv
  · rw [memoSet_ne hxy]
    exact h2 x y v (h1 x y v hv)

/-- Lemma A, the preservation half of the tracker invariant: a successful run
of the engine only extends the tracker; every pair already present keeps its
verdict. -/
theorem isEqualWithMemo_memoLE :
    ∀ (f : Nat) (h : Heap) (o : EqualityOptions) (a b : Value) (m : Memo) (r : Bool)
      (m' : Memo), isEqualWithMemo f h o a b m = some (r, m') → MemoLE m m' := by
  intro f
  induction f with
  | zero =>
    intro h o a b m r m' hh
    simp [isEqualWithMemo] at hh
  | succ f ih =>
    intro h o a b m r m' hh
    have hrec : RecMono (fun x y mm => isEqualWithMemo f h o x y mm) :=
      fun a b mm rr mm' hr => ih h o a b mm rr mm' hr
    simp only [isEqualWithMemo] at hh
    repeat' split at hh
    all_goals
      first
      | (cases hh; exact memoLE_refl m)
      | (cases hh; exact engineFinish_memoLE hrec ‹_› ‹_›)
      | cases hh

/-- The number of ordered pairs of heap objects not yet recorded in the
tracker: the termination measure of the engine. -/
def unmemoCount (h : Heap) (m : Memo) : Nat :=
  (((Finset.range h.length) ×ˢ (Finset.range h.length)).filter
    (fun p => (m p.1 p.2).isNone)).card

/-- Extending the tracker can only lower the measure. -/
theorem unmemoCount_le_of_memoLE {h : Heap} {m m' : Memo} (hle : MemoLE m m') :
    unmemoCount h m' ≤ unmemoCount h m := by
  apply Finset.card_le_card
  intro p hp
  simp only [Finset.mem_filter] at hp ⊢
  refine ⟨hp.1, ?_⟩
  cases hmp : m p.1 p.2 with
  | none => simp
  | some v =>
    have := hle p.1 p.2 v hmp
    rw [this] at hp
    simp at hp

/-- Recording an absent pair of heap objects strictly lowers the measure. -/
theorem unmemoCount_set_lt {h : Heap} {m : Memo} {ia ib : Nat} (hia : ia < h.length)
    (hib : ib < h.length) (hnone : m ia ib = none) (v : Bool) :
    unmemoCount h (memoSet m ia ib v) < unmemoCount h m := by
  apply Finset.card_lt_card
  rw [Finset.ssubset_iff_of_subset]
  · refine ⟨(ia, ib), ?_, ?_⟩
    · simp [Finset.mem_filter, Finset.mem_product, Finset.mem_range, hia, hib, hnone]
    · simp [Finset.mem_filter, memoSet_self]
  · intro p hp
    simp only [Finset.mem_filter] at hp ⊢
    refine ⟨hp.1, ?_⟩
    have hpne : ¬(p.1 = ia ∧ p.2 = ib) := by
      intro hpe
      have : memoSet m ia ib v p.1 p.2 = some v := by
        rw [hpe.1, hpe.2]
        exact memoSet_self m ia ib v
      rw [this] at hp
      simp at hp
    have := memoSet_ne (m := m) (v := v) hpne
    rw [this] at hp
    exact hp.2

/-- An absent pair of valid objects makes the measure positive. -/
theorem unmemoCount_pos {h : Heap} {m : Memo} {ia ib : Nat} (hia : ia < h.length)
    (hib : ib < h.length) (hnone : m ia ib = none) : 0 < unmemoCount h m := by
  apply Finset.card_pos.mpr
  refine ⟨(ia, ib), ?_⟩
  simp [Finset.mem_filter, Finset.mem_product, Finset.mem_range, hia, hib, hnone]

/-- A recursion argument fit for the comparator loops: it only extends the
tracker, and it succeeds on valid values whenever the measure is within
budget. -/
def RecOK (h : Heap) (rec_ : Value → Value → Memo → Option (Bool × Memo))
    (u : Nat) : Prop :=
  RecMono rec_ ∧
  ∀ a b m, validV h.length a = true → validV h.length b = true →
    unmemoCount h m ≤ u → (rec_ a b m).isSome = true

/-- Running a fit recursion argument on valid values within budget yields a
verdict and a tracker still within budget. -/
theorem RecOK.run {h : Heap} {rec_ : Value → Value → Memo → Option (Bool × Memo)}
    {u : Nat} (hok : RecOK h rec_ u) {a b : Value} {m : Memo}
    (ha : validV h.length a = true) (hb : validV h.length b = true)
    (hm : unmemoCount h m ≤ u) :
    ∃ r m', rec_ a b m = some (r, m') ∧ unmemoCount h m' ≤ u := by
  obtain ⟨p, hp⟩ := Option.isSome_iff_exists.mp (hok.2 a b m ha hb hm)
  obtain ⟨r, m'⟩ := p
  exact ⟨r, m', hp, le_trans (unmemoCount_le_of_memoLE (hok.1 a b m r m' hp)) hm⟩

/-- Unboxing preserves validity. -/
theorem unboxV_valid (h : Heap) (a : Value) (ha : validV h.length a = true) :
    validV h.length (unboxV h a) = true := by
  cases a with
  | prim p => exact ha
  | funref i => exact ha
  | ref i =>
    have hlt : i < h.length := by simpa [validV] using ha
    unfold unboxV
    cases hg : heapGet h i with
    | arr es => simp [hg, validV, hlt]
    | date t => simp [hg, validV, hlt]
    | regexp s fl => simp [hg, validV, hlt]
    | typed k bs => simp [hg, validV, hlt]
    | set es => simp [hg, validV, hlt]
    | map es => simp [hg, validV, hlt]
    | boxed bk => cases bk <;> simp [hg, validV]
    | obj p fs => simp [hg, validV, hlt]

/-- An in-range heap read is a member of the heap. -/
theorem heapGet_mem {h : Heap} {i : Nat} (hi : i < h.length) : heapGet h i ∈ h := by
  unfold heapGet
  cases hg : h.get? i with
  | none =>
    rw [List.get?_eq_none] at hg
    omega
  | some x => simpa using List.get?_mem hg

/-- In a closed heap every object read off a valid reference has valid
reachable values. -/
theorem heapGet_vals_valid {h : Heap} (hch : closedHeap h = true) {i : Nat}
    (hi : i < h.length) :
    ∀ v ∈ objVals (heapGet h i), validV h.length v = true := by
  have hmem := heapGet_mem hi
  have := List.all_eq_true.mp hch (heapGet h i) hmem
  intro v hv
  exact List.all_eq_true.mp this v hv

/-- Every slot of an array object with valid reachable values reads to a
valid value. -/
theorem arr_slot_valid {n : Nat} {es : List (Option Value)}
    (hx : ∀ v ∈ objVals (Obj.arr es), validV n v = true) :
    ∀ x ∈ es, validV n (x.getD undefinedV) = true := by
  intro x hxm
  cases x with
  | none => rfl
  | some v =>
    apply hx
    simp only [objVals, List.mem_filterMap]
    exact ⟨some v, hxm, rfl⟩

/-- Both components of a map entry appear among the reachable values. -/
theorem mem_map_objVals {es : List (Value × Value)} {e : Value × Value}
    (he : e ∈ es) :
    e.1 ∈ objVals (Obj.map es) ∧ e.2 ∈ objVals (Obj.map es) := by
  simp only [objVals]
  induction es with
  | nil => cases he
  | cons e' es ih =>
    simp only [List.foldr]
    rcases List.mem_cons.mp he with rfl | he'
    · exact ⟨List.mem_cons_self _ _, List.mem_cons_of_mem _ (List.mem_cons_self _ _)⟩
    · obtain ⟨h1, h2⟩ := ih he'
      exact ⟨List.mem_cons_of_mem _ (List.mem_cons_of_mem _ h1),
        List.mem_cons_of_mem _ (List.mem_cons_of_mem _ h2)⟩

/-- Entries of a map object with valid reachable values have valid keys and
values. -/
theorem map_entry_valid {n : Nat} {es : List (Value × Value)}
    (hx : ∀ v ∈ objVals (Obj.map es), validV n v = true) :
    ∀ e ∈ es, validV n e.1 = true ∧ validV n e.2 = true := by
  intro e he
  obtain ⟨h1, h2⟩ := mem_map_objVals he
  exact ⟨hx e.1 h1, hx e.2 h2⟩

/-- Own-property reads of an object with valid reachable values are valid. -/
theorem getOwnD_valid {n : Nat} (x : Obj)
    (hx : ∀ v ∈ objVals x, validV n v = true) (k : PropKey) :
    validV n (getOwnD x k) = true := by
  cases x with
  | arr es =>
    unfold getOwnD
    by_cases hk : k = PropKey.str "length"
    · simp [getOwn, hk, validV]
    · simp only [getOwn, if_neg hk]
      cases hfind : ((List.range es.length).filter
          (fun i => (es.getD i none).isSome)).find? (fun i => decide (natKey i = k)) with
      | none => simp [hfind, undefinedV, validV]
      | some i =>
        simp only [hfind, Option.some_bind]
        cases hslot : es.getD i none with
        | none => simp [undefinedV, validV]
        | some v =>
          simp only [Option.getD_some]
          apply hx
          simp only [objVals, List.mem_filterMap]
          refine ⟨some v, ?_, rfl⟩
          have hq : es.get? i = some (some v) := by
            unfold List.getD at hslot
            cases hq2 : es.get? i with
            | none => rw [hq2] at hslot; cases hslot
            | some w =>
              rw [hq2] at hslot
              simp only [Option.getD_some] at hslot
              rw [hslot]
          exact List.get?_mem hq
  | date t => rfl
  | regexp s fl =>
    unfold getOwnD
    by_cases hk : k = PropKey.str "lastIndex"
    · simp [getOwn, hk, validV]
    · simp [getOwn, if_neg hk, undefinedV, validV]
  | typed kd bs =>
    unfold getOwnD
    cases hfind : (List.range (elemCount kd bs)).find? (fun i => decide (natKey i = k)) with
    | none => simp [getOwn, hfind, undefinedV, validV]
    | some i =>
      simp only [getOwn, hfind, Option.map_some', Option.getD_some]
      unfold elemVal
      cases kd <;> simp [validV]
  | set es => rfl
  | map es => rfl
  | boxed bk =>
    cases bk with
    | bStr s =>
      unfold getOwnD
      by_cases hk : k = PropKey.str "length"
      · simp [getOwn, hk, validV]
      · simp only [getOwn, if_neg hk]
        cases hfind : (List.range s.length).find? (fun i => decide (natKey i = k)) with
        | none => simp [hfind, undefinedV, validV]
        | some i => simp [hfind, validV]
    | bNum nn => rfl
    | bBool bb => rfl
  | obj p fs =>
    unfold getOwnD
    cases hfind : fs.find? (fun f => decide (f.1 = k)) with
    | none => simp [getOwn, hfind, undefinedV, validV]
    | some f =>
      simp only [getOwn, hfind, Option.map_some', Option.getD_some]
      apply hx
      simp only [objVals, List.mem_map]
      exact ⟨f, List.mem_of_find?_eq_some hfind, rfl⟩

/-- A map lookup on entries with valid values reads to a valid value. -/
theorem mapGet_valid {n : Nat} {es : List (Value × Value)}
    (hx : ∀ e ∈ es, validV n e.1 = true ∧ validV n e.2 = true) (k : Value) :
    validV n ((mapGet es k).getD undefinedV) = true := by
  unfold mapGet
  cases hfind : es.find? (fun e => svzEq e.1 k) with
  | none => rfl
  | some e =>
    simp only [Option.map_some', Option.getD_some]
    exact (hx e (List.mem_of_find?_eq_some hfind)).2

/-- The array element loop succeeds on valid slots within budget. -/
theorem compareArrayLoop_total {h : Heap}
    {rec_ : Value → Value → Memo → Option (Bool × Memo)} {u : Nat}
    (o : EqualityOptions) (hok : RecOK h rec_ u) :
    ∀ (as bs : List (Option Value)) (m : Memo),
    (∀ x ∈ as, validV h.length (x.getD undefinedV) = true) →
    (∀ x ∈ bs, validV h.length (x.getD undefinedV) = true) →
    unmemoCount h m ≤ u →
    ∃ r m', compareArrayLoop rec_ o as bs m = some (r, m') ∧
      unmemoCount h m' ≤ u := by
  intro as
  induction as with
  | nil =>
    intro bs m _ _ hm
    exact ⟨true, m, rfl, hm⟩
  | cons a as ih =>
    intro bs m hva hvb hm
    cases bs with
    | nil => exact ⟨true, m, rfl, hm⟩
    | cons b bs =>
      simp only [compareArrayLoop]
      by_cases h1 : (o.strictSparseArrays && (a.isSome != b.isSome)) = true
      · rw [if_pos h1]
        exact ⟨false, m, rfl, hm⟩
      · rw [if_neg h1]
        by_cases h2 : (o.strictSparseArrays && !a.isSome && !b.isSome) = true
        · rw [if_pos h2]
          exact ih bs m (fun x hx => hva x (List.mem_cons_of_mem a hx))
            (fun x hx => hvb x (List.mem_cons_of_mem b hx)) hm
        · rw [if_neg h2]
          obtain ⟨r, m1, hr, hm1⟩ := hok.run (hva a (List.mem_cons_self a as))
            (hvb b (List.mem_cons_self b bs)) hm
          simp only [hr]
          cases r with
          | true =>
            exact ih bs m1 (fun x hx => hva x (List.mem_cons_of_mem a hx))
              (fun x hx => hvb x (List.mem_cons_of_mem b hx)) hm1
          | false => exact ⟨false, m1, rfl, hm1⟩

/-- compareArray succeeds on valid arrays within budget. -/
theorem compareArray_total {h : Heap}
    {rec_ : Value → Value → Memo → Option (Bool × Memo)} {u : Nat}
    (o : EqualityOptions) (hok : RecOK h rec_ u) (ea eb : List (Option Value))
    (m : Memo) (hva : ∀ x ∈ ea, validV h.length (x.getD undefinedV) = true)
    (hvb : ∀ x ∈ eb, validV h.length (x.getD undefinedV) = true)
    (hm : unmemoCount h m ≤ u) :
    ∃ r m', compareArray rec_ o ea eb m = some (r, m') ∧ unmemoCount h m' ≤ u := by
  unfold compareArray
  by_cases hl : ea.length ≠ eb.length
  · rw [if_pos hl]
    exact ⟨false, m, rfl, hm⟩
  · rw [if_neg hl]
    exact compareArrayLoop_total o hok ea eb m hva hvb hm

/-- The greedy set scan succeeds on valid values within budget. -/
theorem compareSetScan_total {h : Heap}
    {rec_ : Value → Value → Memo → Option (Bool × Memo)} {u : Nat}
    (hok : RecOK h rec_ u) (aVal : Value) (hva : validV h.length aVal = true) :
    ∀ (bs : List Value) (used : List Nat) (i : Nat) (m : Memo),
    (∀ x ∈ bs, validV h.length x = true) → unmemoCount h m ≤ u →
    ∃ res m', compareSetScan rec_ aVal bs used i m = some (res, m') ∧
      unmemoCount h m' ≤ u := by
  intro bs
  induction bs with
  | nil =>
    intro used i m _ hm
    exact ⟨none, m, rfl, hm⟩
  | cons b bs ih =>
    intro used i m hvb hm
    simp only [compareSetScan]
    by_cases hu : used.contains i = true
    · rw [if_pos hu]
      exact ih used (i + 1) m (fun x hx => hvb x (List.mem_cons_of_mem b hx)) hm
    · rw [if_neg hu]
      obtain ⟨r, m1, hr, hm1⟩ := hok.run hva (hvb b (List.mem_cons_self b bs)) hm
      simp only [hr]
      cases r with
      | true => exact ⟨some i, m1, rfl, hm1⟩
      | false =>
        exact ih used (i + 1) m1 (fun x hx => hvb x (List.mem_cons_of_mem b hx)) hm1

/-- The outer set loop succeeds on valid values within budget. -/
theorem compareSetLoop_total {h : Heap}
    {rec_ : Value → Value → Memo → Option (Bool × Memo)} {u : Nat}
    (hok : RecOK h rec_ u) :
    ∀ (as bArr : List Value) (used : List Nat) (m : Memo),
    (∀ x ∈ as, validV h.length x = true) →
    (∀ x ∈ bArr, validV h.length x = true) → unmemoCount h m ≤ u →
    ∃ r m', compareSetLoop rec_ as bArr used m = some (r, m') ∧
      unmemoCount h m' ≤ u := by
  intro as
  induction as with
  | nil =>
    intro bArr used m _ _ hm
    exact ⟨true, m, rfl, hm⟩
  | cons a as ih =>
    intro bArr used m hva hvb hm
    simp only [compareSetLoop]
    cases hfe : findExactIdx a bArr used 0 with
    | some i =>
      exact ih bArr (i :: used) m (fun x hx => hva x (List.mem_cons_of_mem a hx))
        hvb hm
    | none =>
      obtain ⟨res, m1, hr, hm1⟩ := compareSetScan_total hok a
        (hva a (List.mem_cons_self a as)) bArr used 0 m hvb hm
      simp only [hr]
      cases res with
      | none => exact ⟨false, m1, rfl, hm1⟩
      | some i =>
        exact ih bArr (i :: used) m1 (fun x hx => hva x (List.mem_cons_of_mem a hx))
          hvb hm1

/-- compareSet succeeds on valid sets within budget. -/
theorem compareSet_total {h : Heap}
    {rec_ : Value → Value → Memo → Option (Bool × Memo)} {u : Nat}
    (hok : RecOK h rec_ u) (ea eb : List Value) (m : Memo)
    (hva : ∀ x ∈ ea, validV h.length x = true)
    (hvb : ∀ x ∈ eb, validV h.length x = true) (hm : unmemoCount h m ≤ u) :
    ∃ r m', compareSet rec_ ea eb m = some (r, m') ∧ unmemoCount h m' ≤ u := by
  unfold compareSet
  by_cases hl : ea.length ≠ eb.length
  · rw [if_pos hl]
    exact ⟨false, m, rfl, hm⟩
  · rw [if_neg hl]
    exact compareSetLoop_total hok ea eb [] m hva hvb hm

/-- The greedy map scan succeeds on valid values within budget. -/
theorem compareMapScan_total {h : Heap}
    {rec_ : Value → Value → Memo → Option (Bool × Memo)} {u : Nat}
    (hok : RecOK h rec_ u) (aKey aVal : Value)
    (hvk : validV h.length aKey = true) (hvv : validV h.length aVal = true) :
    ∀ (bs : List (Value × Value)) (used : List Nat) (i : Nat) (m : Memo),
    (∀ e ∈ bs, validV h.length e.1 = true ∧ validV h.length e.2 = true) →
    unmemoCount h m ≤ u →
    ∃ res m', compareMapScan rec_ aKey aVal bs used i m = some (res, m') ∧
      unmemoCount h m' ≤ u := by
  intro bs
  induction bs with
  | nil =>
    intro used i m _ hm
    exact ⟨none, m, rfl, hm⟩
  | cons e bs ih =>
    intro used i m hvb hm
    simp only [compareMapScan]
    by_cases hu : used.contains i = true
    · rw [if_pos hu]
      exact ih used (i + 1) m (fun x hx => hvb x (List.mem_cons_of_mem e hx)) hm
    · rw [if_neg hu]
      obtain ⟨r, m1, hr, hm1⟩ := hok.run hvk (hvb e (List.mem_cons_self e bs)).1 hm
      simp only [hr]
      cases r with
      | false =>
        exact ih used (i + 1) m1 (fun x hx => hvb x (List.mem_cons_of_mem e hx)) hm1
      | true =>
        obtain ⟨r2, m2, hr2, hm2⟩ := hok.run hvv (hvb e (List.mem_cons_self e bs)).2 hm1
        simp only [hr2]
        cases r2 with
        | true => exact ⟨some i, m2, rfl, hm2⟩
        | false =>
          exact ih used (i + 1) m2 (fun x hx => hvb x (List.mem_cons_of_mem e hx)) hm2

/-- The outer map loop succeeds on valid entries within budget. -/
theorem compareMapLoop_total {h : Heap}
    {rec_ : Value → Value → Memo → Option (Bool × Memo)} {u : Nat}
    (hok : RecOK h rec_ u) :
    ∀ (as bEntries : List (Value × Value)) (used : List Nat) (m : Memo),
    (∀ e ∈ as, validV h.length e.1 = true ∧ validV h.length e.2 = true) →
    (∀ e ∈ bEntries, validV h.length e.1 = true ∧ validV h.length e.2 = true) →
    unmemoCount h m ≤ u →
    ∃ r m', compareMapLoop rec_ as bEntries used m = some (r, m') ∧
      unmemoCount h m' ≤ u := by
  intro as
  induction as with
  | nil =>
    intro bEntries used m _ _ hm
    exact ⟨true, m, rfl, hm⟩
  | cons e as ih =>
    intro bEntries used m hva hvb hm
    simp only [compareMapLoop]
    by_cases hp : isPrimitiveV e.1 = true
    · rw [if_pos hp]
      by_cases hb : (tripleEq ((mapGet bEntries e.1).getD undefinedV) undefinedV &&
          !(mapHas bEntries e.1)) = true
      · rw [if_pos hb]
        exact ⟨false, m, rfl, hm⟩
      · rw [if_neg hb]
        obtain ⟨r, m1, hr, hm1⟩ := hok.run (hva e (List.mem_cons_self e as)).2
          (mapGet_valid hvb e.1) hm
        simp only [hr]
        cases r with
        | false => exact ⟨false, m1, rfl, hm1⟩
        | true =>
          exact ih bEntries used m1 (fun x hx => hva x (List.mem_cons_of_mem e hx))
            hvb hm1
    · rw [if_neg hp]
      obtain ⟨res, m1, hr, hm1⟩ := compareMapScan_total hok e.1 e.2
        (hva e (List.mem_cons_self e as)).1 (hva e (List.mem_cons_self e as)).2
        bEntries used 0 m hvb hm
      simp only [hr]
      cases res with
      | none => exact ⟨false, m1, rfl, hm1⟩
      | some i =>
        exact ih bEntries (i :: used) m1 (fun x hx => hva x (List.mem_cons_of_mem e hx))
          hvb hm1

/-- compareMap succeeds on valid maps within budget. -/
theorem compareMap_total {h : Heap}
    {rec_ : Value → Value → Memo → Option (Bool × Memo)} {u : Nat}
    (hok : RecOK h rec_ u) (ea eb : List (Value × Value)) (m : Memo)
    (hva : ∀ e ∈ ea, validV h.length e.1 = true ∧ validV h.length e.2 = true)
    (hvb : ∀ e ∈ eb, validV h.length e.1 = true ∧ validV h.length e.2 = true)
    (hm : unmemoCount h m ≤ u) :
    ∃ r m', compareMap rec_ ea eb m = some (r, m') ∧ unmemoCount h m' ≤ u := by
  unfold compareMap
  by_cases hl : ea.length ≠ eb.length
  · rw [if_pos hl]
    exact ⟨false, m, rfl, hm⟩
  · rw [if_neg hl]
    exact compareMapLoop_total hok ea eb [] m hva hvb hm

/-- The object key loop succeeds on valid property reads within budget. -/
theorem compareObjectLoop_total {h : Heap}
    {rec_ : Value → Value → Memo → Option (Bool × Memo)} {u : Nat}
    (hok : RecOK h rec_ u) (oa ob : Obj)
    (hva : ∀ k, validV h.length (getOwnD oa k) = true)
    (hvb : ∀ k, validV h.length (getOwnD ob k) = true) :
    ∀ (ks : List PropKey) (count : Nat) (m : Memo), unmemoCount h m ≤ u →
    ∃ res m', compareObjectLoop rec_ oa ob ks count m = some (res, m') ∧
      unmemoCount h m' ≤ u := by
  intro ks
  induction ks with
  | nil =>
    intro count m hm
    exact ⟨some count, m, rfl, hm⟩
  | cons k ks ih =>
    intro count m hm
    simp only [compareObjectLoop]
    by_cases ho : hasOwnK ob k = true
    · rw [if_neg (by simp [ho])]
      obtain ⟨r, m1, hr, hm1⟩ := hok.run (hva k) (hvb k) hm
      simp only [hr]
      cases r with
      | false => exact ⟨none, m1, rfl, hm1⟩
      | true => exact ih (count + 1) m1 hm1
    · have ho' : hasOwnK ob k = false := by
        revert ho; cases hasOwnK ob k <;> simp
      rw [if_pos (by simp [ho'])]
      exact ⟨none, m, rfl, hm⟩

/-- compareObject succeeds on valid property reads within budget. -/
theorem compareObject_total {h : Heap}
    {rec_ : Value → Value → Memo → Option (Bool × Memo)} {u : Nat}
    (hok : RecOK h rec_ u) (oa ob : Obj)
    (hva : ∀ k, validV h.length (getOwnD oa k) = true)
    (hvb : ∀ k, validV h.length (getOwnD ob k) = true) (m : Memo)
    (hm : unmemoCount h m ≤ u) :
    ∃ r m', compareObject rec_ oa ob m = some (r, m') ∧ unmemoCount h m' ≤ u := by
  unfold compareObject
  obtain ⟨res, m1, hr, hm1⟩ := compareObjectLoop_total hok oa ob hva hvb
    (ownKeys oa) 0 m hm
  rw [hr]
  cases res with
  | none => exact ⟨false, m1, rfl, hm1⟩
  | some count => exact ⟨decide ((ownKeys ob).length = count), m1, rfl, hm1⟩

/-- The whole dispatch chain succeeds on objects with valid reachable values
within budget. -/
theorem dispatchCompare_total {h : Heap}
    {rec_ : Value → Value → Memo → Option (Bool × Memo)} {u : Nat}
    (o : EqualityOptions) (hok : RecOK h rec_ u) (x y : Obj)
    (hvx : ∀ v ∈ objVals x, validV h.length v = true)
    (hvy : ∀ v ∈ objVals y, validV h.length v = true) (m : Memo)
    (hm : unmemoCount h m ≤ u) :
    ∃ r m', dispatchCompare rec_ o x y m = some (r, m') ∧
      unmemoCount h m' ≤ u := by
  cases x <;> cases y <;> simp only [dispatchCompare] <;>
    first
    | exact ⟨_, m, rfl, hm⟩
    | exact compareArray_total o hok _ _ m (arr_slot_valid hvx) (arr_slot_valid hvy) hm
    | exact compareSet_total hok _ _ m hvx hvy hm
    | exact compareMap_total hok _ _ m (map_entry_valid hvx) (map_entry_valid hvy) hm
    | (split <;>
        first
        | exact ⟨false, m, rfl, hm⟩
        | exact compareObject_total hok _ _ (getOwnD_valid _ hvx) (getOwnD_valid _ hvy)
            m hm)

/-- The strict-equality shortcut of the engine. -/
theorem isEqualWithMemo_tripleEq (f : Nat) (h : Heap) (o : EqualityOptions)
    (a b : Value) (m : Memo) (h1 : tripleEq a b = true) :
    isEqualWithMemo (f + 1) h o a b m = some (true, m) := by
  simp [isEqualWithMemo, h1]

/-- The NaN special case of the engine. -/
theorem isEqualWithMemo_nan (f : Nat) (h : Heap) (o : EqualityOptions)
    (a b : Value) (m : Memo) (h2 : (isNaNV a && isNaNV b) = true) :
    isEqualWithMemo (f + 1) h o a b m = some (true, m) := by
  by_cases h1 : tripleEq a b = true <;> simp [isEqualWithMemo, h1, h2]

/-- Unfolding of the engine past the strict-equality and NaN shortcuts. -/
theorem isEqualWithMemo_tail_eq (f : Nat) (h : Heap) (o : EqualityOptions)
    (a b : Value) (m : Memo) (h1 : tripleEq a b = false)
    (h2 : (isNaNV a && isNaNV b) = false) :
    isEqualWithMemo (f + 1) h o a b m =
      (let a1 := if o.normalizeBoxedPrimitives && isBoxedPrimitiveV h a then unboxV h a else a
       let b1 := if o.normalizeBoxedPrimitives && isBoxedPrimitiveV h b then unboxV h b else b
       if o.normalizeBoxedPrimitives && (isPrimitiveV a1 && isPrimitiveV b1) then
         some (tripleEq a1 b1, m)
       else if isPrimitiveV a1 || isPrimitiveV b1 then some (false, m)
       else if isFunctionV a1 || isFunctionV b1 then some (tripleEq a1 b1, m)
       else
         match a1, b1 with
         | Value.ref ia, Value.ref ib =>
           (match m ia ib with
           | some c => some (c, m)
           | none =>
             match dispatchCompare (fun x y mm => isEqualWithMemo f h o x y mm) o
                 (heapGet h ia) (heapGet h ib) (memoSet m ia ib true) with
             | none => none
             | some (res, m2) => some (res, memoSet m2 ia ib res))
         | _, _ => some (false, m)) := by
  simp only [isEqualWithMemo, h1, h2, Bool.false_eq_true, if_false]

/-- If the engine runs out of fuel, the failing frame is an object pair that
was just pushed in-progress: both sides are valid references, the pair was
absent from the tracker, and the dispatch chain at the next fuel level ran
out. -/
theorem isEqualWithMemo_none_char (f : Nat) (h : Heap) (o : EqualityOptions)
    (a b : Value) (m : Memo) (hva : validV h.length a = true)
    (hvb : validV h.length b = true)
    (hnone : isEqualWithMemo (f + 1) h o a b m = none) :
    ∃ ia ib, ia < h.length ∧ ib < h.length ∧ m ia ib = none ∧
      dispatchCompare (fun x y mm => isEqualWithMemo f h o x y mm) o
        (heapGet h ia) (heapGet h ib) (memoSet m ia ib true) = none := by
  by_cases h1 : tripleEq a b = true
  · rw [isEqualWithMemo_tripleEq f h o a b m h1] at hnone
    cases hnone
  · have h1' : tripleEq a b = false := by revert h1; cases tripleEq a b <;> simp
    by_cases h2 : (isNaNV a && isNaNV b) = true
    · rw [isEqualWithMemo_nan f h o a b m h2] at hnone
      cases hnone
    · have h2' : (isNaNV a && isNaNV b) = false := by
        revert h2; cases (isNaNV a && isNaNV b) <;> simp
      rw [isEqualWithMemo_tail_eq f h o a b m h1' h2'] at hnone
      simp only [] at hnone
      cases hValA : (if o.normalizeBoxedPrimitives && isBoxedPrimitiveV h a then
          unboxV h a else a) with
      | prim p =>
        rw [hValA] at hnone
        by_cases hc1 : (o.normalizeBoxedPrimitives &&
            (isPrimitiveV (Value.prim p) && isPrimitiveV (if o.normalizeBoxedPrimitives &&
              isBoxedPrimitiveV h b then unboxV h b else b))) = true
        · rw [if_pos hc1] at hnone
          cases hnone
        · rw [if_neg hc1, if_pos (by simp [isPrimitiveV])] at hnone
          cases hnone
      | funref i =>
        rw [hValA] at hnone
        cases hValB : (if o.normalizeBoxedPrimitives && isBoxedPrimitiveV h b then
            unboxV h b else b) with
        | prim q =>
          rw [hValB] at hnone
          rw [if_neg (by simp [isPrimitiveV]), if_pos (by simp [isPrimitiveV])] at hnone
          cases hnone
        | funref j =>
          rw [hValB] at hnone
          rw [if_neg (by simp [isPrimitiveV]), if_neg (by simp [isPrimitiveV]),
            if_pos (by simp [isFunctionV])] at hnone
          cases hnone
        | ref ib =>
          rw [hValB] at hnone
          rw [if_neg (by simp [isPrimitiveV]), if_neg (by simp [isPrimitiveV]),
            if_pos (by simp [isFunctionV])] at hnone
          cases hnone
      | ref ia =>
        rw [hValA] at hnone
        cases hValB : (if o.normalizeBoxedPrimitives && isBoxedPrimitiveV h b then
            unboxV h b else b) with
        | prim q =>
          rw [hValB] at hnone
          rw [if_neg (by simp [isPrimitiveV]), if_pos (by simp [isPrimitiveV])] at hnone
          cases hnone
        | funref j =>
          rw [hValB] at hnone
          rw [if_neg (by simp [isPrimitiveV]), if_neg (by simp [isPrimitiveV]),
            if_pos (by simp [isFunctionV])] at hnone
          cases hnone
        | ref ib =>
          rw [hValB] at hnone
          rw [if_neg (by simp [isPrimitiveV]), if_neg (by simp [isPrimitiveV]),
            if_neg (by simp [isFunctionV])] at hnone
          have hnone' : (match m ia ib with
              | some c => some (c, m)
              | none =>
                match dispatchCompare (fun x y mm => isEqualWithMemo f h o x y mm) o
                    (heapGet h ia) (heapGet h ib) (memoSet m ia ib true) with
                | none => none
                | some (res, m2) => some (res, memoSet m2 ia ib res)) =
              (none : Option (Bool × Memo)) := hnone
          cases hmem : m ia ib with
          | some c =>
            rw [hmem] at hnone'
            cases hnone'
          | none =>
            rw [hmem] at hnone'
            cases hdm : dispatchCompare (fun x y mm => isEqualWithMemo f h o x y mm) o
                (heapGet h ia) (heapGet h ib) (memoSet m ia ib true) with
            | some p =>
              rw [hdm] at hnone'
              obtain ⟨res, m2⟩ := p
              cases hnone'
            | none =>
              refine ⟨ia, ib, ?_, ?_, hmem, hdm⟩
              · have hv : validV h.length (Value.ref ia) = true := by
                  rw [← hValA]
                  by_cases hc : (o.normalizeBoxedPrimitives && isBoxedPrimitiveV h a) = true
                  · rw [if_pos hc]
                    exact unboxV_valid h a hva
                  · rw [if_neg hc]
                    exact hva
                simpa [validV] using hv
              · have hv : validV h.length (Value.ref ib) = true := by
                  rw [← hValB]
                  by_cases hc : (o.normalizeBoxedPrimitives && isBoxedPrimitiveV h b) = true
                  · rw [if_pos hc]
                    exact unboxV_valid h b hvb
                  · rw [if_neg hc]
                    exact hvb
                simpa [validV] using hv

/-- Lemma B, sufficiency of fuel: in a closed heap, on valid values, the
engine with fuel one more than the number of unrecorded object pairs always
returns a verdict.  This is the termination argument of the source: each
level of recursion starts by recording a new in-progress pair, so the
recursion depth is bounded by the number of object pairs. -/
theorem isEqualWithMemo_total (h : Heap) (o : EqualityOptions)
    (hch : closedHeap h = true) :
    ∀ (u : Nat) (a b : Value) (m : Memo), validV h.length a = true →
    validV h.length b = true → unmemoCount h m ≤ u →
    (isEqualWithMemo (u + 1) h o a b m).isSome = true := by
  intro u
  induction u with
  | zero =>
    intro a b m hva hvb hm
    cases hres : isEqualWithMemo (0 + 1) h o a b m with
    | some p => rfl
    | none =>
      exfalso
      obtain ⟨ia, ib, hia, hib, hmem, _⟩ :=
        isEqualWithMemo_none_char 0 h o a b m hva hvb hres
      have := unmemoCount_pos hia hib hmem
      omega
  | succ u ih =>
    intro a b m hva hvb hm
    cases hres : isEqualWithMemo (u + 1 + 1) h o a b m with
    | some p => rfl
    | none =>
      exfalso
      obtain ⟨ia, ib, hia, hib, hmem, hdm⟩ :=
        isEqualWithMemo_none_char (u + 1) h o a b m hva hvb hres
      have hm1 : unmemoCount h (memoSet m ia ib true) ≤ u := by
        have := unmemoCount_set_lt hia hib hmem true
        omega
      have hok : RecOK h (fun x y mm => isEqualWithMemo (u + 1) h o x y mm) u :=
        ⟨fun a b mm rr mm' hr => isEqualWithMemo_memoLE (u + 1) h o a b mm rr mm' hr,
         fun a b mm ha' hb' hm' => ih a b mm ha' hb' hm'⟩
      obtain ⟨r, m2, hrr, _⟩ := dispatchCompare_total o hok (heapGet h ia)
        (heapGet h ib) (heapGet_vals_valid hch hia) (heapGet_vals_valid hch hib)
        (memoSet m ia ib true) hm1
      rw [hrr] at hdm
      cases hdm

/-- The fresh tracker leaves every pair of the heap unrecorded. -/
theorem unmemoCount_empty_le (h : Heap) :
    unmemoCount h emptyMemo ≤ h.length * h.length := by
  unfold unmemoCount
  calc (((Finset.range h.length) ×ˢ (Finset.range h.length)).filter
        (fun p => (emptyMemo p.1 p.2).isNone)).card
      ≤ ((Finset.range h.length) ×ˢ (Finset.range h.length)).card :=
        Finset.card_filter_le _ _
    _ = h.length * h.length := by
        rw [Finset.card_product, Finset.card_range]

/-- C1: the equality engine terminates on every pair of valid inputs over a
closed heap, including self-referential (cyclic) object graphs: the public
isEqual always returns a verdict.  The fuel argument rests on the in-progress
insertion: before recursing into a pair of objects the pair is recorded in
the tracker, so any back-reference to an ancestor pair short-circuits via the
cache instead of recursing, and the recursion depth is bounded by the number
of object pairs. -/
theorem c1_termination (h : Heap) (o : EqualityOptions) (a b : Value)
    (hch : closedHeap h = true) (hva : validV h.length a = true)
    (hvb : validV h.length b = true) :
    (isEqual h a b o).isSome = true := by
  unfold isEqual
  have hres := isEqualWithMemo_total h o hch (h.length * h.length) a b emptyMemo
    hva hvb (unmemoCount_empty_le h)
  cases hq : isEqualWithMemo (h.length * h.length + 1) h o a b emptyMemo with
  | none =>
    rw [hq] at hres
    cases hres
  | some p => rfl

/-- Witness heap for C1: two independently constructed self-referential
objects, each with a field pointing back at itself. -/
def heapCyclicPair : Heap :=
  [Obj.obj ObjProto.objectP [(PropKey.str "self", Value.ref 0)],
   Obj.obj ObjProto.objectP [(PropKey.str "self", Value.ref 1)]]

/-- Witness for C1 at concrete inputs: the two cyclic objects. -/
theorem c1_termination_witness :
    (closedHeap heapCyclicPair = true ∧
      validV heapCyclicPair.length (Value.ref 0) = true ∧
      validV heapCyclicPair.length (Value.ref 1) = true) ∧
    (isEqual heapCyclicPair (Value.ref 0) (Value.ref 1) {}).isSome = true :=
  ⟨⟨by decide, by decide, by decide⟩,
    c1_termination heapCyclicPair {} (Value.ref 0) (Value.ref 1) (by decide)
      (by decide) (by decide)⟩

/-- C2: the tracker state-machine invariant.  A successful frame (i) never
rewrites any pair already present in the tracker it received, so a recorded
pair follows the single path absent, then in-progress, then resolved, and is
never revisited afterwards within the tracker lifetime; and (ii) when the
frame is the one that pushed its own pair in-progress (two distinct object
references, absent from the tracker, not unwrapped by normalization), the
returned tracker holds that pair resolved to exactly the returned verdict: no
pair is left in-progress past its owning call frame. -/
theorem c2_tracker_lifecycle (f : Nat) (h : Heap) (o : EqualityOptions)
    (a b : Value) (m : Memo) (r : Bool) (m' : Memo)
    (hrun : isEqualWithMemo f h o a b m = some (r, m')) :
    (∀ x y v, m x y = some v → m' x y = some v) ∧
    (∀ ia ib, a = Value.ref ia → b = Value.ref ib → ia ≠ ib →
      (o.normalizeBoxedPrimitives = true → isBoxedPrimitiveV h a = false ∧
        isBoxedPrimitiveV h b = false) →
      m ia ib = none → m' ia ib = some r) := by
  constructor
  · exact isEqualWithMemo_memoLE f h o a b m r m' hrun
  · intro ia ib hea heb hne hnb hmnone
    subst hea
    subst heb
    cases f with
    | zero => simp [isEqualWithMemo] at hrun
    | succ f =>
      have hba : (o.normalizeBoxedPrimitives &&
          isBoxedPrimitiveV h (Value.ref ia)) = false := by
        cases hn : o.normalizeBoxedPrimitives with
        | false => rfl
        | true => rw [(hnb hn).1]; rfl
      have hbb : (o.normalizeBoxedPrimitives &&
          isBoxedPrimitiveV h (Value.ref ib)) = false := by
        cases hn : o.normalizeBoxedPrimitives with
        | false => rfl
        | true => rw [(hnb hn).2]; rfl
      rw [isEqualWithMemo_ref_step f h o ia ib m hne hba hbb hmnone] at hrun
      cases hdm : dispatchCompare (fun x y mm => isEqualWithMemo f h o x y mm) o
          (heapGet h ia) (heapGet h ib) (memoSet m ia ib true) with
      | none =>
        rw [hdm] at hrun
        cases hrun
      | some p =>
        rw [hdm] at hrun
        obtain ⟨res, m2⟩ := p
        cases hrun
        exact memoSet_self m2 ia ib _

/-- Witness heap for C2: two distinct empty plain objects. -/
def heapEmptyPair : Heap := [Obj.obj ObjProto.objectP [], Obj.obj ObjProto.objectP []]

/-- Witness for C2 at concrete inputs: comparing the two empty objects from a
fresh tracker records the pair and resolves it to the returned verdict. -/
theorem c2_tracker_lifecycle_witness :
    (emptyMemo 0 1 = none ∧ (0 : Nat) ≠ 1) ∧
    (memoSet (memoSet emptyMemo 0 1 true) 0 1 true) 0 1 = some true :=
  ⟨⟨rfl, by decide⟩,
    (c2_tracker_lifecycle 5 heapEmptyPair {} (Value.ref 0) (Value.ref 1) emptyMemo
        true (memoSet (memoSet emptyMemo 0 1 true) 0 1 true) rfl).2 0 1 rfl rfl
      (by decide) (fun hn => Bool.noConfusion hn) rfl⟩

/-- Under strict sparse mode, the array element loop returns false whenever
some index has mismatched holeness, regardless of the element comparisons
before it. -/
theorem compareArrayLoop_false {h : Heap}
    {rec_ : Value → Value → Memo → Option (Bool × Memo)} {u : Nat}
    (o : EqualityOptions) (hok : RecOK h rec_ u)
    (hstrict : o.strictSparseArrays = true) :
    ∀ (as bs : List (Option Value)) (m : Memo), as.length = bs.length →
    (∀ x ∈ as, validV h.length (x.getD undefinedV) = true) →
    (∀ x ∈ bs, validV h.length (x.getD undefinedV) = true) →
    unmemoCount h m ≤ u →
    (∃ i, (as.getD i none).isSome ≠ (bs.getD i none).isSome) →
    ∃ m', compareArrayLoop rec_ o as bs m = some (false, m') := by
  intro as
  induction as with
  | nil =>
    intro bs m hl _ _ _ hmis
    cases bs with
    | nil =>
      obtain ⟨i, hi⟩ := hmis
      simp [List.getD] at hi
    | cons b bs => simp at hl
  | cons a as ih =>
    intro bs m hl hva hvb hm hmis
    cases bs with
    | nil => simp at hl
    | cons b bs =>
      have hl' : as.length = bs.length := by simpa using hl
      simp only [compareArrayLoop]
      by_cases hh : (a.isSome != b.isSome) = true
      · rw [if_pos (by rw [hstrict, hh]; rfl)]
        exact ⟨m, rfl⟩
      · have hh' : a.isSome = b.isSome := by
          revert hh; cases a.isSome <;> cases b.isSome <;> simp
        have hmis' : ∃ i, (as.getD i none).isSome ≠ (bs.getD i none).isSome := by
          obtain ⟨i, hi⟩ := hmis
          cases i with
          | zero =>
            simp only [List.getD_cons_zero] at hi
            exact absurd hh' hi
          | succ i =>
            simp only [List.getD_cons_succ] at hi
            exact ⟨i, hi⟩
        have hh2 : (a.isSome != b.isSome) = false := by
          revert hh; cases (a.isSome != b.isSome) <;> simp
        by_cases hhole : a.isSome = false
        · rw [if_neg (by simp [hh2]),
            if_pos (by rw [hstrict, hhole, ← hh', hhole]; rfl)]
          exact ih bs m hl' (fun x hx => hva x (List.mem_cons_of_mem a hx))
            (fun x hx => hvb x (List.mem_cons_of_mem b hx)) hm hmis'
        · have hsome : a.isSome = true := by
            revert hhole; cases a.isSome <;> simp
          rw [if_neg (by simp [hh2]),
            if_neg (by rw [hstrict, hsome]; simp)]
          obtain ⟨r, m1, hr, hm1⟩ := hok.run (hva a (List.mem_cons_self a as))
            (hvb b (List.mem_cons_self b bs)) hm
          simp only [hr]
          cases r with
          | false => exact ⟨m1, rfl⟩
          | true =>
            exact ih bs m1 hl' (fun x hx => hva x (List.mem_cons_of_mem a hx))
              (fun x hx => hvb x (List.mem_cons_of_mem b hx)) hm1 hmis'

/-- Witness heap for C6: the array [1, hole, 3] and the array
[1, undefined, 3]. -/
def heapSparsePair : Heap :=
  [Obj.arr [some (Value.prim (Prim.num (JsNum.int 1))), none,
            some (Value.prim (Prim.num (JsNum.int 3)))],
   Obj.arr [some (Value.prim (Prim.num (JsNum.int 1))), some undefinedV,
            some (Value.prim (Prim.num (JsNum.int 3)))]]

/-- C6: sparse-sequence option semantics.  With strictSparseArrays off (the
default), a hole and an explicit undefined compare equal: the listed example
returns true.  With strictSparseArrays on, the same example returns false,
and in general for two arrays of equal length in a closed heap, mismatched
holeness at any index makes the comparison return false even though both
slots read as undefined. -/
theorem c6_sparse_arrays :
    isEqual heapSparsePair (Value.ref 0) (Value.ref 1) {} = some true ∧
    isEqual heapSparsePair (Value.ref 0) (Value.ref 1)
      { strictSparseArrays := true } = some false ∧
    (∀ (h : Heap) (o : EqualityOptions) (ia ib : Nat)
      (ea eb : List (Option Value)),
      closedHeap h = true → o.strictSparseArrays = true →
      h.get? ia = some (Obj.arr ea) → h.get? ib = some (Obj.arr eb) →
      ea.length = eb.length →
      (∃ i, (ea.getD i none).isSome ≠ (eb.getD i none).isSome) →
      isEqual h (Value.ref ia) (Value.ref ib) o = some false) := by
  refine ⟨by decide, by decide, ?_⟩
  intro h o ia ib ea eb hch hstrict hga hgb hlen hmis
  have hxa := heapGet_eq hga
  have hxb := heapGet_eq hgb
  have hne : ia ≠ ib := by
    intro he
    subst he
    rw [hga] at hgb
    injection hgb with h'
    injection h' with h2
    obtain ⟨i, hi⟩ := hmis
    rw [h2] at hi
    exact hi rfl
  have hba : isBoxedPrimitiveV h (Value.ref ia) = false := by
    rw [isBoxed_of_heapGet h ia _ hxa]
    simp [catOf]
  have hbb : isBoxedPrimitiveV h (Value.ref ib) = false := by
    rw [isBoxed_of_heapGet h ib _ hxb]
    simp [catOf]
  have hia : ia < h.length := (List.get?_eq_some.mp hga).1
  obtain ⟨g, hg⟩ : ∃ g, h.length * h.length = g + 1 :=
    ⟨h.length * h.length - 1, by
      have : 0 < h.length * h.length :=
        Nat.mul_pos (by omega) (by omega)
      omega⟩
  unfold isEqual
  rw [isEqualWithMemo_ref_step _ _ _ _ _ _ hne (by rw [hba]; simp)
    (by rw [hbb]; simp) rfl]
  rw [hxa, hxb]
  simp only [dispatchCompare]
  unfold compareArray
  rw [if_neg (by omega)]
  have hok : RecOK h (fun x y mm => isEqualWithMemo (h.length * h.length) h o x y mm) g := by
    rw [hg]
    exact ⟨fun a b mm rr mm' hr => isEqualWithMemo_memoLE (g + 1) h o a b mm rr mm' hr,
      fun a b mm ha' hb' hm' => isEqualWithMemo_total h o hch g a b mm ha' hb' hm'⟩
  have hib : ib < h.length := (List.get?_eq_some.mp hgb).1
  have hm1 : unmemoCount h (memoSet emptyMemo ia ib true) ≤ g := by
    have hlt := unmemoCount_set_lt hia hib (m := emptyMemo) rfl true
    have hle := unmemoCount_empty_le h
    omega
  have hvals_a := heapGet_vals_valid hch hia
  have hvals_b := heapGet_vals_valid hch hib
  rw [hxa] at hvals_a
  rw [hxb] at hvals_b
  obtain ⟨m', hloop⟩ := compareArrayLoop_false o hok hstrict ea eb
    (memoSet emptyMemo ia ib true) hlen (arr_slot_valid hvals_a)
    (arr_slot_valid hvals_b) hm1 hmis
  rw [hloop]
  rfl

/-- Witness for the general conjunct of C6 at concrete inputs: the sparse
pair with mismatched holeness at index 1 under strict mode. -/
theorem c6_sparse_arrays_witness :
    (closedHeap heapSparsePair = true ∧
      (([some (Value.prim (Prim.num (JsNum.int 1))), none,
         some (Value.prim (Prim.num (JsNum.int 3)))] :
          List (Option Value)).getD 1 none).isSome ≠
        (([some (Value.prim (Prim.num (JsNum.int 1))), some undefinedV,
           some (Value.prim (Prim.num (JsNum.int 3)))] :
            List (Option Value)).getD 1 none).isSome) ∧
    isEqual heapSparsePair (Value.ref 0) (Value.ref 1)
      { strictSparseArrays := true } = some false :=
  ⟨⟨by decide, by decide⟩,
    c6_sparse_arrays.2.2 heapSparsePair { strictSparseArrays := true } 0 1 _ _
      (by decide) rfl rfl rfl rfl ⟨1, by decide⟩⟩

/-- SameValueZero is reflexive (NaN matches NaN). -/
theorem svzEq_self (v : Value) : svzEq v v = true := by
  unfold svzEq
  rw [tripleEq_self]
  cases isNaNV v <;> rfl

/-- When no entry of the map matches a key under SameValueZero, the lookup
misses. -/
theorem mapGet_eq_none {es : List (Value × Value)} {k : Value}
    (hno : ∀ e ∈ es, svzEq e.1 k = false) : mapGet es k = none := by
  unfold mapGet
  rw [List.find?_eq_none.mpr (fun e he => by rw [hno e he]; simp)]
  rfl

/-- The outer map loop returns false whenever one of a's entries carries a
primitive key that no entry of b matches: the primitive key is resolved by
direct lookup, which misses. -/
theorem compareMapLoop_false {h : Heap}
    {rec_ : Value → Value → Memo → Option (Bool × Memo)} {u : Nat}
    (hok : RecOK h rec_ u) (k : Prim) :
    ∀ (as bEntries : List (Value × Value)) (used : List Nat) (m : Memo),
    (∀ e ∈ as, validV h.length e.1 = true ∧ validV h.length e.2 = true) →
    (∀ e ∈ bEntries, validV h.length e.1 = true ∧ validV h.length e.2 = true) →
    unmemoCount h m ≤ u →
    (∃ v, (Value.prim k, v) ∈ as) →
    (∀ e ∈ bEntries, svzEq e.1 (Value.prim k) = false) →
    ∃ m', compareMapLoop rec_ as bEntries used m = some (false, m') := by
  intro as
  induction as with
  | nil =>
    intro bEntries used m _ _ _ hmem _
    obtain ⟨v, hv⟩ := hmem
    cases hv
  | cons e as ih =>
    intro bEntries used m hva hvb hm hmem hno
    simp only [compareMapLoop]
    by_cases hp : isPrimitiveV e.1 = true
    · rw [if_pos hp]
      by_cases hg : (tripleEq ((mapGet bEntries e.1).getD undefinedV) undefinedV &&
          !(mapHas bEntries e.1)) = true
      · rw [if_pos hg]
        exact ⟨m, rfl⟩
      · rw [if_neg hg]
        have hmem' : ∃ v, (Value.prim k, v) ∈ as := by
          obtain ⟨v, hv⟩ := hmem
          rcases List.mem_cons.mp hv with hv' | hv'
          · exfalso
            apply hg
            have he1 : e.1 = Value.prim k := by rw [← hv']
            rw [he1, mapGet_eq_none hno]
            simp [mapHas, mapGet_eq_none hno, undefinedV, tripleEq]
          · exact ⟨v, hv'⟩
        obtain ⟨r, m1, hr, hm1⟩ := hok.run (hva e (List.mem_cons_self e as)).2
          (mapGet_valid hvb e.1) hm
        simp only [hr]
        cases r with
        | false => exact ⟨m1, rfl⟩
        | true =>
          exact ih bEntries used m1 (fun x hx => hva x (List.mem_cons_of_mem e hx))
            hvb hm1 hmem' hno
    · rw [if_neg hp]
      have hmem' : ∃ v, (Value.prim k, v) ∈ as := by
        obtain ⟨v, hv⟩ := hmem
        rcases List.mem_cons.mp hv with hv' | hv'
        · exfalso
          apply hp
          rw [← hv']
          rfl
        · exact ⟨v, hv'⟩
      obtain ⟨res, m1, hr, hm1⟩ := compareMapScan_total hok e.1 e.2
        (hva e (List.mem_cons_self e as)).1 (hva e (List.mem_cons_self e as)).2
        bEntries used 0 m hvb hm
      simp only [hr]
      cases res with
      | none => exact ⟨m1, rfl⟩
      | some i =>
        exact ih bEntries (i :: used) m1 (fun x hx => hva x (List.mem_cons_of_mem e hx))
          hvb hm1 hmem' hno

/-- Heap with the map (a mapped to 1) and the map (a mapped to 2). -/
def heapMapValuePair : Heap :=
  [Obj.map [(Value.prim (Prim.str "a"), Value.prim (Prim.num (JsNum.int 1)))],
   Obj.map [(Value.prim (Prim.str "a"), Value.prim (Prim.num (JsNum.int 2)))]]

/-- C9: the ordered-map comparator requires equal cardinality (maps of
different sizes compare false), and an entry of map a with a primitive key is
resolved in map b by direct lookup at that exact key, failing when b has no
SameValueZero-identical key (in particular a deeply equal but non-identical
boxed key does not count, even under normalization); a primitive-keyed entry
whose values differ also fails, as in the concrete example of the maps (a
mapped to 1) and (a mapped to 2). -/
theorem c9_map_primitive_keys :
    (∀ (h : Heap) (o : EqualityOptions) (ia ib : Nat) (ea eb : List (Value × Value)),
      ia ≠ ib → h.get? ia = some (Obj.map ea) → h.get? ib = some (Obj.map eb) →
      ea.length ≠ eb.length →
      isEqual h (Value.ref ia) (Value.ref ib) o = some false) ∧
    (∀ (h : Heap) (o : EqualityOptions) (ia ib : Nat) (ea eb : List (Value × Value))
      (k : Prim) (v : Value),
      closedHeap h = true →
      h.get? ia = some (Obj.map ea) → h.get? ib = some (Obj.map eb) →
      (Value.prim k, v) ∈ ea →
      (∀ e ∈ eb, svzEq e.1 (Value.prim k) = false) →
      isEqual h (Value.ref ia) (Value.ref ib) o = some false) ∧
    isEqual heapMapValuePair (Value.ref 0) (Value.ref 1) {} = some false ∧
    isEqual heapBoxedKeyMaps (Value.ref 2) (Value.ref 1)
      { normalizeBoxedPrimitives := true } = some false := by
  refine ⟨?_, ?_, by decide, by decide⟩
  · intro h o ia ib ea eb hne hga hgb hlen
    have hxa := heapGet_eq hga
    have hxb := heapGet_eq hgb
    have hba : isBoxedPrimitiveV h (Value.ref ia) = false := by
      rw [isBoxed_of_heapGet h ia _ hxa]
      simp [catOf]
    have hbb : isBoxedPrimitiveV h (Value.ref ib) = false := by
      rw [isBoxed_of_heapGet h ib _ hxb]
      simp [catOf]
    unfold isEqual
    rw [isEqualWithMemo_ref_step _ _ _ _ _ _ hne (by rw [hba]; simp)
      (by rw [hbb]; simp) rfl]
    rw [hxa, hxb]
    simp only [dispatchCompare]
    unfold compareMap
    rw [if_pos hlen]
    rfl
  · intro h o ia ib ea eb k v hch hga hgb hmem hno
    have hne : ia ≠ ib := by
      intro he
      subst he
      rw [hga] at hgb
      injection hgb with h'
      injection h' with h2
      have := hno (Value.prim k, v) (h2 ▸ hmem)
      rw [svzEq_self] at this
      cases this
    have hxa := heapGet_eq hga
    have hxb := heapGet_eq hgb
    have hba : isBoxedPrimitiveV h (Value.ref ia) = false := by
      rw [isBoxed_of_heapGet h ia _ hxa]
      simp [catOf]
    have hbb : isBoxedPrimitiveV h (Value.ref ib) = false := by
      rw [isBoxed_of_heapGet h ib _ hxb]
      simp [catOf]
    have hia : ia < h.length := (List.get?_eq_some.mp hga).1
    have hib : ib < h.length := (List.get?_eq_some.mp hgb).1
    obtain ⟨g, hg⟩ : ∃ g, h.length * h.length = g + 1 :=
      ⟨h.length * h.length - 1, by
        have : 0 < h.length * h.length := Nat.mul_pos (by omega) (by omega)
        omega⟩
    unfold isEqual
    rw [isEqualWithMemo_ref_step _ _ _ _ _ _ hne (by rw [hba]; simp)
      (by rw [hbb]; simp) rfl]
    rw [hxa, hxb]
    simp only [dispatchCompare]
    unfold compareMap
    by_cases hlen : ea.length ≠ eb.length
    · rw [if_pos hlen]
      rfl
    · rw [if_neg hlen]
      have hok : RecOK h
          (fun x y mm => isEqualWithMemo (h.length * h.length) h o x y mm) g := by
        rw [hg]
        exact ⟨fun a b mm rr mm' hr =>
            isEqualWithMemo_memoLE (g + 1) h o a b mm rr mm' hr,
          fun a b mm ha' hb' hm' => isEqualWithMemo_total h o hch g a b mm ha' hb' hm'⟩
      have hm1 : unmemoCount h (memoSet emptyMemo ia ib true) ≤ g := by
        have hlt := unmemoCount_set_lt hia hib (m := emptyMemo) rfl true
        have hle := unmemoCount_empty_le h
        omega
      have hvals_a := heapGet_vals_valid hch hia
      have hvals_b := heapGet_vals_valid hch hib
      rw [hxa] at hvals_a
      rw [hxb] at hvals_b
      obtain ⟨m', hloop⟩ := compareMapLoop_false hok k ea eb []
        (memoSet emptyMemo ia ib true) (map_entry_valid hvals_a)
        (map_entry_valid hvals_b) hm1 ⟨v, hmem⟩ hno
      rw [hloop]
      rfl

/-- Witness for C9 at concrete inputs: the map keyed by the primitive 1
against the map keyed by the boxed Number 1 has no SameValueZero match for
the primitive key, so the comparison is false (here with default options). -/
theorem c9_map_primitive_keys_witness :
    (closedHeap heapBoxedKeyMaps = true ∧
      (Value.prim (Prim.num (JsNum.int 1)), Value.prim (Prim.str "v")) ∈
        [(Value.prim (Prim.num (JsNum.int 1)), Value.prim (Prim.str "v"))] ∧
      (∀ e ∈ [(Value.ref 0, Value.prim (Prim.str "v"))],
        svzEq e.1 (Value.prim (Prim.num (JsNum.int 1))) = false)) ∧
    isEqual heapBoxedKeyMaps (Value.ref 2) (Value.ref 1) {} = some false :=
  ⟨⟨by decide, by decide, by decide⟩,
    c9_map_primitive_keys.2.1 heapBoxedKeyMaps {} 2 1 _ _
      (Prim.num (JsNum.int 1)) (Value.prim (Prim.str "v")) (by decide) rfl rfl
      (by decide) (by decide)⟩

end IsDeepEqual
